import Mathlib

/-!
Verification development for the warsawjs-workshop-5-chat repository.

The embedding below translates `src/lib/ChatServer.js` (session registry,
presence notifications, broadcast engine, socket event handlers) into pure
Lean definitions.  A socket is identified by a `SocketId`; the per-socket
`CLIENT_DATA.login` property becomes a function `SocketId → Option Login`;
the `_userSockets` JavaScript `Map` from login to a `Set` of sockets becomes
an insertion-ordered association list whose values are duplicate-free,
insertion-ordered lists (matching `Map`/`Set` iteration semantics).

JavaScript truthiness matters: the guards `if (!login)` in
`_unregisterSocket`, `if (!socket[CLIENT_DATA].login)` in the chat handler,
`previousLogin && ...` in `_authorizeSocket` and
`socket[CLIENT_DATA].login && ...` in the disconnect handler all treat the
empty string like `null`.  The embedding keeps that behaviour explicit via
`truthy`.
-/

namespace Chat

abbrev Login := String
abbrev SocketId := Nat

/-- JavaScript truthiness of the nullable login string stored in
`socket[CLIENT_DATA].login`: `null` and the empty string are falsy. -/
def truthy : Option Login → Bool
  | none => false
  | some l => l != ""

/-- The `_userSockets` JavaScript `Map`: an insertion-ordered association
list from login to the `Set` (insertion-ordered, duplicate-free list) of
that login's sockets. -/
abbrev UserMap := List (Login × List SocketId)

/-- JS `Map.prototype.get`: the value stored at the first matching key. -/
def mapGet : UserMap → Login → Option (List SocketId)
  | [], _ => none
  | (k, v) :: rest, k' => if k = k' then some v else mapGet rest k'

/-- JS `Map.prototype.set`: replace the value at an existing key in place,
otherwise append the new entry at the end. -/
def mapSet : UserMap → Login → List SocketId → UserMap
  | [], k, v => [(k, v)]
  | (k', v') :: rest, k, v =>
    if k' = k then (k, v) :: rest else (k', v') :: mapSet rest k v

/-- JS `Map.prototype.delete`: remove the entry at the first matching key. -/
def mapDelete : UserMap → Login → UserMap
  | [], _ => []
  | (k', v') :: rest, k => if k' = k then rest else (k', v') :: mapDelete rest k

/-- JS `Set.prototype.add`: append the element unless already present. -/
def setAdd (s : List SocketId) (x : SocketId) : List SocketId :=
  if x ∈ s then s else s ++ [x]

/-- JS `Set.prototype.delete`: remove the element (a JS `Set` holds it at most
once, so removing every occurrence from a duplicate-free list agrees). -/
def setDelete (s : List SocketId) (x : SocketId) : List SocketId :=
  s.filter (fun y => y ≠ x)

/-- The mutable state of a running `ChatServer`: the set of live (connected)
sockets, the `CLIENT_DATA.login` property of each socket, and the
`_userSockets` map. -/
structure ServerState where
  live : List SocketId
  clientData : SocketId → Option Login
  userSockets : UserMap

/-- The server right after construction: no sockets, empty `_userSockets`. -/
def initState : ServerState :=
  { live := [], clientData := fun _ => none, userSockets := [] }

/-- The connection set currently associated to a login (empty when the login
has no entry in `_userSockets`). -/
def setOf (st : ServerState) (lg : Login) : List SocketId :=
  (mapGet st.userSockets lg).getD []

/-- The error payload `{name, code, message}` forwarded to clients on auth
and register failures. -/
structure ErrInfo where
  name : String
  code : String
  message : String
deriving DecidableEq, Repr

/-- An outbound event emitted on an individual socket
(`recipientSocket.emit(type, message)` / `socket.emit(type, message)`). -/
inductive Out where
  | join (lg : Login)
  | leave (lg : Login)
  | chatMsg (src : Login) (body : Option String)
  | authReply (success : Bool) (lg : Option Login) (err : Option ErrInfo)
  | regReply (success : Bool) (lg : Option Login) (err : Option ErrInfo)
deriving DecidableEq, Repr

/-- A presence broadcast invocation: one call of `_notifyUserJoin` or
`_notifyUserLeave` (each is a single broadcast, regardless of how many
sockets it reaches). -/
inductive PEvent where
  | join (lg : Login)
  | leave (lg : Login)
deriving DecidableEq, Repr

/-- Source `_unregisterSocket(socket)`: drop the socket from its login's socket
set, deleting the map entry when the set becomes empty.  The JS guard
`if (!login) return` skips `null` and the empty-string login alike, and the
function never touches `CLIENT_DATA`. -/
def unregisterSocket (st : ServerState) (s : SocketId) : ServerState :=
  match st.clientData s with
  | none => st
  | some login =>
    if login = "" then st
    else
      let loginSockets := setDelete ((mapGet st.userSockets login).getD []) s
      if loginSockets.length > 0 then
        { st with userSockets := mapSet st.userSockets login loginSockets }
      else
        { st with userSockets := mapDelete st.userSockets login }

/-- Source `_registerSocket(socket)`: add the socket to the set of its current
`CLIENT_DATA.login` and write the set back.  Every call site runs right
after `CLIENT_DATA.login` has been assigned a login, so the source never
reads a `null` login here; the `none` branch is a no-op placeholder for
that unreachable case.  (The source's unused `originalCount` local is
omitted.) -/
def registerSocket (st : ServerState) (s : SocketId) : ServerState :=
  match st.clientData s with
  | none => st
  | some login =>
    let loginSockets := (mapGet st.userSockets login).getD []
    { st with userSockets := mapSet st.userSockets login (setAdd loginSockets s) }

/-- Sockets reached by `_broadcastMessage`: it iterates the `_userSockets`
map entry by entry and each entry's socket set in order, keeping the sockets
accepted by the filter.  No caller ever sets `message.senderSocket`, so the
`recipientSocket === message.senderSocket` guard never fires; it is kept
here as an optional sender that every call site instantiates with `none`. -/
def broadcastRecipients (m : UserMap) (socketFilter : SocketId → Bool)
    (sender : Option SocketId) : List SocketId :=
  (m.flatMap (fun p => p.2.filter socketFilter)).filter
    (fun r => !(sender = some r : Bool))

/-- Source `_broadcastMessage(type, message, { socketFilter })` as the list of
individual deliveries it performs. -/
def broadcastMessage (st : ServerState) (msg : Out) (socketFilter : SocketId → Bool)
    (sender : Option SocketId) : List (SocketId × Out) :=
  (broadcastRecipients st.userSockets socketFilter sender).map (fun r => (r, msg))

/-- Source `_notifyUserJoin(login)`: broadcast `join{login}` filtered to sockets
whose current login differs from `login`. -/
def notifyUserJoin (st : ServerState) (lg : Login) : List (SocketId × Out) :=
  broadcastMessage st (Out.join lg) (fun r => !(st.clientData r = some lg : Bool)) none

/-- Source `_notifyUserLeave(login)`: broadcast `leave{login}` filtered to sockets
whose current login differs from `login`. -/
def notifyUserLeave (st : ServerState) (lg : Login) : List (SocketId × Out) :=
  broadcastMessage st (Out.leave lg) (fun r => !(st.clientData r = some lg : Bool)) none

/-- The result of one atomic handler run: the successor state, the presence
broadcasts it invoked (in order), and the individual socket emissions it
performed (in order). -/
structure StepOut where
  state : ServerState
  pevents : List PEvent
  deliveries : List (SocketId × Out)

/-- Source `_authorizeSocket(login, socket)`: re-register the socket under the new
login and emit the presence notifications.  Mirrors the source line by
line: capture `previousLogin` and `currentLoginHadSocketsBefore`, then
unregister, assign `CLIENT_DATA.login`, register, then conditionally
`_notifyUserLeave(previousLogin)` and `_notifyUserJoin`. -/
def authorizeSocket (st : ServerState) (lg : Login) (s : SocketId) : StepOut :=
  let previousLogin := st.clientData s
  let currentLoginHadSocketsBefore := (mapGet st.userSockets lg).isSome
  let st1 := unregisterSocket st s
  let st2 := { st1 with clientData := fun x => if x = s then some lg else st1.clientData x }
  let st3 := registerSocket st2 s
  let doLeave : Option Login :=
    match previousLogin with
    | some p =>
      if p ≠ "" ∧ p ≠ lg ∧ (mapGet st3.userSockets p).isNone then some p else none
    | none => none
  let leavePE : List PEvent :=
    match doLeave with | some p => [PEvent.leave p] | none => []
  let leaveDel : List (SocketId × Out) :=
    match doLeave with | some p => notifyUserLeave st3 p | none => []
  let joinPE : List PEvent :=
    if currentLoginHadSocketsBefore then [] else [PEvent.join lg]
  let joinDel : List (SocketId × Out) :=
    if currentLoginHadSocketsBefore then [] else notifyUserJoin st3 lg
  { state := st3, pevents := leavePE ++ joinPE, deliveries := leaveDel ++ joinDel }

/-- Every socket currently stored in the `_userSockets` map (the sockets a
broadcast can reach), in map iteration order. -/
def registrySockets (st : ServerState) : List SocketId :=
  st.userSockets.flatMap (fun p => p.2)

/-- An atomic inbound occurrence handled by the server: a new transport
connection, an `auth` event whose authenticator promise resolved (`authOk`)
or rejected (`authFail`), a `register` event whose authenticator promise
resolved or rejected, a `chat` event (whose `body` may be absent, i.e.
`undefined`, in a malformed payload), or the transport disconnect signal.
The authenticator verdict is part of the event because `ChatServer` is
parametric in its authenticator (the bundled `DummyAuthenticator` resolves
every `authenticate` call, for any login string whatsoever). -/
inductive Ev where
  | connect (s : SocketId)
  | authOk (s : SocketId) (lg : Login)
  | authFail (s : SocketId) (err : ErrInfo)
  | regOk (s : SocketId) (lg : Login)
  | regFail (s : SocketId) (err : ErrInfo)
  | chat (s : SocketId) (body : Option String)
  | disconnect (s : SocketId)
deriving DecidableEq, Repr

/-- One handler run, with JavaScript exceptions made explicit: `.error`
marks an exception escaping the handler itself.  The only handler that can
throw is the `chat` handler, at `logger.warn({ ..., size: body.length })`
when the payload has no `body` and the sender is unauthenticated; that line
runs before any state mutation or any emission, so nothing is changed or
delivered when it throws.  Events only arrive for live sockets (a `connect`
only for a fresh socket): the transport guarantees no events after
disconnect, so non-live cases are no-ops. -/
def stepE (st : ServerState) (e : Ev) : Except String StepOut :=
  match e with
  | .connect s =>
    if s ∈ st.live then .ok ⟨st, [], []⟩
    else
      let cd := fun x => if x = s then none else st.clientData x
      .ok ⟨{ st with live := st.live ++ [s], clientData := cd }, [], []⟩
  | .authOk s lg =>
    if s ∈ st.live then
      let out := authorizeSocket st lg s
      .ok ⟨out.state, out.pevents,
           (s, Out.authReply true (some lg) none) :: out.deliveries⟩
    else .ok ⟨st, [], []⟩
  | .authFail s err =>
    if s ∈ st.live then .ok ⟨st, [], [(s, Out.authReply false none (some err))]⟩
    else .ok ⟨st, [], []⟩
  | .regOk s lg =>
    if s ∈ st.live then .ok ⟨st, [], [(s, Out.regReply true (some lg) none)]⟩
    else .ok ⟨st, [], []⟩
  | .regFail s err =>
    if s ∈ st.live then .ok ⟨st, [], [(s, Out.regReply false none (some err))]⟩
    else .ok ⟨st, [], []⟩
  | .chat s body =>
    if s ∈ st.live then
      if truthy (st.clientData s) = false then
        match body with
        | some _ => .ok ⟨st, [], []⟩
        | none => .error "TypeError: Cannot read property length of undefined"
      else
        match st.clientData s with
        | some l =>
          .ok ⟨st, [],
               broadcastMessage st (Out.chatMsg l body) (fun r => !(r = s : Bool)) none⟩
        | none => .ok ⟨st, [], []⟩
    else .ok ⟨st, [], []⟩
  | .disconnect s =>
    if s ∈ st.live then
      let st1 := unregisterSocket st s
      let st2 := { st1 with live := st1.live.filter (fun x => x ≠ s) }
      match st.clientData s with
      | some l =>
        if l ≠ "" ∧ (mapGet st2.userSockets l).isNone then
          .ok ⟨st2, [PEvent.leave l], notifyUserLeave st2 l⟩
        else .ok ⟨st2, [], []⟩
      | none => .ok ⟨st2, [], []⟩
    else .ok ⟨st, [], []⟩

/-- One handler run with the exception case collapsed to "nothing happened":
the single throwing point precedes every mutation and emission, so a thrown
handler leaves the state untouched and delivers nothing. -/
def stepFn (st : ServerState) (e : Ev) : StepOut :=
  match stepE st e with
  | .ok out => out
  | .error _ => ⟨st, [], []⟩

/-- Run a sequence of events from the freshly constructed server. -/
def runSt (es : List Ev) : ServerState :=
  es.foldl (fun st e => (stepFn st e).state) initState

/-- A state the server can actually be in: reachable from the initial state
by some event sequence. -/
def Reachable (st : ServerState) : Prop :=
  ∃ es, runSt es = st

/-- JS error values as `LevelAuthenticator` and the reply marshaller observe
them: a `name` and a `message`. A plain `new Error(message)` has name
"Error" and carries no `code` property (so the register reply's
`error.code` field is `undefined` for it). -/
structure JsError where
  name : String
  message : String
deriving DecidableEq, Repr

/-- Source `throw new Error('User already exists')` in the `keyExists`
handler of `LevelAuthenticator.register` (src/client.js, second document):
a plain Error — name "Error", no `code`. -/
def userExistsError : JsError :=
  { name := "Error", message := "User already exists" }

/-- Source `LevelAuthenticator.userPrefix + login` with
`LevelAuthenticator.userPrefix = 'users:'`: the level key under which a
login's password hash is stored. -/
def userKey (login : String) : String :=
  "users:" ++ login

/-- Ordered key/value lookup: the first pair whose key matches, if any. -/
def assocLookup : List (String × String) → String → Option String
  | [], _ => none
  | (k, v) :: rest, key => if k = key then some v else assocLookup rest key

/-- Source `levelPromisify(level(this._options.path))`: the level key-value
store, as the pairs ever `put` into it. -/
structure CredStore where
  users : List (String × String)
deriving DecidableEq, Repr

/-- Source `self._db.get(key)`: resolves with the stored value; `none`
stands for its rejection with a NotFoundError, the only `get` failure of
the in-process store, which `register`'s check treats as "login free". -/
def dbGet (db : CredStore) (key : String) : Option String :=
  assocLookup db.users key

/-- Modelled abstraction of `bcrypt.hash(password, costFactor)`: it always
resolves, and the resulting hash string is only ever stored — never
inspected by the registration claims — so it is abstracted as identity. -/
def hashPassword (pw : String) : String := pw

/-- Source: the function `register` queues on the `_registrationLock` chain
— `when.all` of the bcrypt hash and the existence check
(`db.get(userKey login)` resolving means the user exists, so `keyExists`
throws `new Error('User already exists')`; a NotFoundError rejection means
the login is free), then `db.put(userKey login, passwordHash)`. A throw in
the check rejects the step before the put runs, leaving the store
unchanged. -/
def registerStep (db : CredStore) (login pw : String) :
    CredStore × Except JsError Unit :=
  match dbGet db (userKey login) with
  | some _ => (db, Except.error userExistsError)
  | none =>
    ({ users := db.users ++ [(userKey login, hashPassword pw)] },
     Except.ok ())

/-- The authenticator's mutable state: the level store plus the settled
value of the `_registrationLock` promise chain — `when.resolve()`
(fulfilled) at construction, thereafter the settlement of the most recently
chained registration step. -/
structure AuthState where
  db : CredStore
  lock : Except JsError Unit
deriving Repr

/-- Source `register(login, password)`: reassigns
`this._registrationLock = this._registrationLock.then(fn)` and returns the
new chain, so the caller observes the new chain's settlement. `then` is
given no rejection handler, so on a rejected (poisoned) chain `fn` never
runs — the store is untouched and the same error propagates; on a
fulfilled chain the queued check-then-write step runs against the current
store and its outcome settles the new chain. -/
def register (st : AuthState) (login pw : String) :
    AuthState × Except JsError Unit :=
  match st.lock with
  | Except.error e => (st, Except.error e)
  | Except.ok _ =>
    let step := registerStep st.db login pw
    ({ db := step.1, lock := step.2 }, step.2)

/-- A freshly constructed `LevelAuthenticator`: empty store,
`_registrationLock = when.resolve()`. -/
def initialAuthState : AuthState :=
  { db := { users := [] }, lock := Except.ok () }

/-- A sequence of `register` submissions: each call synchronously chains
its step onto the lock, so steps execute strictly in submission order, at
most one at a time. Returns the final authenticator state and each call's
observed result, in order. -/
def runRegisterCalls (st : AuthState) :
    List (String × String) → AuthState × List (String × Except JsError Unit)
  | [] => (st, [])
  | (lg, pw) :: rest =>
    let c := register st lg pw
    let tail := runRegisterCalls c.1 rest
    (tail.1, (lg, c.2) :: tail.2)

/-- Whether a `register` call's returned promise fulfilled. -/
def regOkBool : Except JsError Unit → Bool
  | Except.ok _ => true
  | Except.error _ => false

/-- The number of successful registrations of a login in a run's result
list. -/
def regSuccessCount (results : List (String × Except JsError Unit))
    (lg : String) : Nat :=
  (results.filter (fun r => r.1 = lg && regOkBool r.2)).length

/-- Whether a handler run completed without an exception escaping it. -/
def stepOk (st : ServerState) (e : Ev) : Bool :=
  match stepE st e with
  | .ok _ => true
  | .error _ => false

/-- Whether an outbound event is an auth or register result
(`{success, login, error?}` reply). -/
def isReply : Out → Bool
  | .authReply _ _ _ => true
  | .regReply _ _ _ => true
  | _ => false

/-- The inductive invariant of the session registry, preserved by every
handler: map keys are distinct; stored socket sets are non-empty; a socket
stored under a non-empty-string login has exactly that login as its
`CLIENT_DATA.login` and is live; and every live socket with a bound login
is stored under that login. -/
def Inv (st : ServerState) : Prop :=
  (st.userSockets.map Prod.fst).Nodup ∧
  (∀ p ∈ st.userSockets, p.2 ≠ []) ∧
  (∀ p ∈ st.userSockets, ∀ x ∈ p.2, p.1 = "" ∨ st.clientData x = some p.1) ∧
  (∀ x ∈ st.live, ∀ l, st.clientData x = some l →
    ∃ v, mapGet st.userSockets l = some v ∧ x ∈ v) ∧
  (∀ p ∈ st.userSockets, p.1 ≠ "" → ∀ x ∈ p.2, x ∈ st.live)

/-! ### Association-list and set lemmas -/

theorem mapGet_mem (m : UserMap) (k : Login) (v : List SocketId)
    (h : mapGet m k = some v) : (k, v) ∈ m := by
  induction m with
  | nil => simp [mapGet] at h
  | cons p rest ih =>
    obtain ⟨pk, pv⟩ := p
    by_cases hpk : pk = k
    · subst hpk
      simp only [mapGet, if_true, Option.some_inj] at h
      subst h
      exact List.mem_cons_self _ _
    · simp only [mapGet, if_neg hpk] at h
      exact List.mem_cons_of_mem _ (ih h)

theorem mapGet_mapSet (m : UserMap) (k : Login) (v : List SocketId) (k' : Login) :
    mapGet (mapSet m k v) k' = if k = k' then some v else mapGet m k' := by
  induction m with
  | nil => by_cases h : k = k' <;> simp [mapGet, mapSet, h]
  | cons p rest ih =>
    obtain ⟨pk, pv⟩ := p
    by_cases hpk : pk = k <;> by_cases h : k = k'
    · subst hpk; subst h; simp [mapSet, mapGet]
    · subst hpk; simp [mapSet, mapGet, h]
    · subst h; simp [mapSet, mapGet, hpk, ih]
    · by_cases h2 : pk = k'
      · subst h2; simp [mapSet, mapGet, hpk, h]
      · simp [mapSet, mapGet, hpk, h2, ih, h]

theorem mapGet_mapDelete_ne (m : UserMap) (k k' : Login) (h : k ≠ k') :
    mapGet (mapDelete m k) k' = mapGet m k' := by
  induction m with
  | nil => simp [mapDelete]
  | cons p rest ih =>
    obtain ⟨pk, pv⟩ := p
    by_cases hpk : pk = k
    · subst hpk
      simp [mapDelete, mapGet, h]
    · simp [mapDelete, mapGet, hpk, ih]

theorem mapDelete_sublist (m : UserMap) (k : Login) : (mapDelete m k).Sublist m := by
  induction m with
  | nil => simp [mapDelete]
  | cons p rest ih =>
    obtain ⟨pk, pv⟩ := p
    by_cases hpk : pk = k
    · rw [show mapDelete ((pk, pv) :: rest) k = rest by simp [mapDelete, hpk]]
      exact List.sublist_cons_self (pk, pv) rest
    · simpa [mapDelete, hpk] using ih.cons₂ (pk, pv)

theorem mem_mapDelete (m : UserMap) (k : Login) (p : Login × List SocketId)
    (h : p ∈ mapDelete m k) : p ∈ m :=
  (mapDelete_sublist m k).mem h

theorem mapGet_mapDelete_self (m : UserMap) (k : Login)
    (hn : (m.map Prod.fst).Nodup) : mapGet (mapDelete m k) k = none := by
  induction m with
  | nil => simp [mapDelete, mapGet]
  | cons p rest ih =>
    obtain ⟨pk, pv⟩ := p
    simp only [List.map_cons, List.nodup_cons] at hn
    by_cases hpk : pk = k
    · subst hpk
      simp only [mapDelete, if_pos rfl]
      cases hg : mapGet rest pk with
      | none => exact hg
      | some v =>
        exact absurd (List.mem_map_of_mem Prod.fst (mapGet_mem rest pk v hg)) hn.1
    · simp only [mapDelete, if_neg hpk, mapGet, if_neg hpk]
      exact ih hn.2

theorem mapGet_isSome_iff (m : UserMap) (k : Login) :
    (mapGet m k).isSome ↔ k ∈ m.map Prod.fst := by
  induction m with
  | nil => simp [mapGet]
  | cons p rest ih =>
    obtain ⟨pk, pv⟩ := p
    simp only [mapGet, List.map_cons, List.mem_cons]
    by_cases hpk : pk = k
    · subst hpk
      simp
    · rw [if_neg hpk, ih]
      constructor
      · exact Or.inr
      · intro h2
        rcases h2 with h2 | h2
        · exact absurd h2.symm hpk
        · exact h2

theorem mem_mapSet (m : UserMap) (k : Login) (v : List SocketId)
    (p : Login × List SocketId) (h : p ∈ mapSet m k v) : p = (k, v) ∨ p ∈ m := by
  induction m with
  | nil => simpa [mapSet] using h
  | cons q rest ih =>
    obtain ⟨qk, qv⟩ := q
    by_cases hq : qk = k
    · subst hq
      simp only [mapSet, if_true, List.mem_cons] at h
      rcases h with h | h
      · exact Or.inl h
      · exact Or.inr (List.mem_cons_of_mem _ h)
    · simp only [mapSet, if_neg hq, List.mem_cons] at h
      rcases h with h | h
      · exact Or.inr (by simp [h])
      · rcases ih h with h2 | h2
        · exact Or.inl h2
        · exact Or.inr (List.mem_cons_of_mem _ h2)

theorem keys_mapSet_mem (m : UserMap) (k : Login) (v : List SocketId)
    (h : k ∈ m.map Prod.fst) :
    (mapSet m k v).map Prod.fst = m.map Prod.fst := by
  induction m with
  | nil => simp at h
  | cons q rest ih =>
    obtain ⟨qk, qv⟩ := q
    by_cases hq : qk = k
    · subst hq
      simp [mapSet]
    · simp only [List.map_cons, List.mem_cons] at h
      rcases h with h | h
      · exact absurd h.symm hq
      · simp [mapSet, hq, ih h]

theorem keys_mapSet_not_mem (m : UserMap) (k : Login) (v : List SocketId)
    (h : k ∉ m.map Prod.fst) :
    (mapSet m k v).map Prod.fst = m.map Prod.fst ++ [k] := by
  induction m with
  | nil => simp [mapSet]
  | cons q rest ih =>
    obtain ⟨qk, qv⟩ := q
    simp only [List.map_cons, List.mem_cons] at h
    push_neg at h
    simp [mapSet, Ne.symm h.1, ih h.2]

theorem nodupKeys_mapSet (m : UserMap) (k : Login) (v : List SocketId)
    (hn : (m.map Prod.fst).Nodup) : ((mapSet m k v).map Prod.fst).Nodup := by
  by_cases h : k ∈ m.map Prod.fst
  · rwa [keys_mapSet_mem m k v h]
  · rw [keys_mapSet_not_mem m k v h]
    refine List.Nodup.append hn (List.nodup_singleton k) ?_
    intro a ha hb
    simp only [List.mem_singleton] at hb
    subst hb
    exact h ha

theorem nodupKeys_mapDelete (m : UserMap) (k : Login)
    (hn : (m.map Prod.fst).Nodup) : ((mapDelete m k).map Prod.fst).Nodup :=
  ((mapDelete_sublist m k).map Prod.fst).nodup hn

theorem mem_setAdd (s : List SocketId) (x y : SocketId) :
    y ∈ setAdd s x ↔ y ∈ s ∨ y = x := by
  by_cases h : x ∈ s
  · simp only [setAdd, if_pos h]
    constructor
    · exact Or.inl
    · rintro (hy | rfl)
      · exact hy
      · exact h
  · simp [setAdd, h]

theorem mem_setDelete (s : List SocketId) (x y : SocketId) :
    y ∈ setDelete s x ↔ y ∈ s ∧ y ≠ x := by
  simp [setDelete]

theorem setAdd_ne_nil (s : List SocketId) (x : SocketId) : setAdd s x ≠ [] := by
  by_cases h : x ∈ s
  · simp only [setAdd, if_pos h]
    intro hnil
    subst hnil
    simp at h
  · simp [setAdd, h]

theorem mem_broadcastRecipients (m : UserMap) (f : SocketId → Bool) (r : SocketId) :
    r ∈ broadcastRecipients m f none ↔ (∃ p ∈ m, r ∈ p.2) ∧ f r = true := by
  simp only [broadcastRecipients, List.mem_filter, List.mem_flatMap]
  constructor
  · rintro ⟨⟨p, hp, hr⟩, -⟩
    exact ⟨⟨p, hp, hr.1⟩, hr.2⟩
  · rintro ⟨⟨p, hp, hr⟩, hf⟩
    exact ⟨⟨p, hp, hr, hf⟩, by simp⟩

theorem mem_broadcastMessage (st : ServerState) (msg : Out) (f : SocketId → Bool)
    (r : SocketId) (o : Out) :
    (r, o) ∈ broadcastMessage st msg f none ↔
      o = msg ∧ (∃ p ∈ st.userSockets, r ∈ p.2) ∧ f r = true := by
  simp only [broadcastMessage, List.mem_map]
  constructor
  · rintro ⟨x, hx, h⟩
    cases h
    exact ⟨rfl, (mem_broadcastRecipients _ _ _).1 hx⟩
  · rintro ⟨rfl, h⟩
    exact ⟨r, (mem_broadcastRecipients _ _ _).2 h, rfl⟩

theorem mem_mapSet_sharp (m : UserMap) (k : Login) (v : List SocketId)
    (p : Login × List SocketId) (hn : (m.map Prod.fst).Nodup)
    (h : p ∈ mapSet m k v) : (p ∈ m ∧ p.1 ≠ k) ∨ p = (k, v) := by
  induction m with
  | nil =>
    simp only [mapSet, List.mem_singleton] at h
    exact Or.inr h
  | cons q rest ih =>
    obtain ⟨qk, qv⟩ := q
    simp only [List.map_cons, List.nodup_cons] at hn
    by_cases hq : qk = k
    · subst hq
      simp only [mapSet, if_true, List.mem_cons] at h
      rcases h with h | h
      · exact Or.inr h
      · refine Or.inl ⟨List.mem_cons_of_mem _ h, ?_⟩
        intro hk
        exact hn.1 (hk ▸ List.mem_map_of_mem Prod.fst h)
    · simp only [mapSet, if_neg hq, List.mem_cons] at h
      rcases h with h | h
      · exact Or.inl ⟨by simp [h], by simp [h, hq]⟩
      · rcases ih hn.2 h with ⟨h2, h3⟩ | h2
        · exact Or.inl ⟨List.mem_cons_of_mem _ h2, h3⟩
        · exact Or.inr h2

theorem mem_mapDelete_sharp (m : UserMap) (k : Login)
    (p : Login × List SocketId) (hn : (m.map Prod.fst).Nodup)
    (h : p ∈ mapDelete m k) : p ∈ m ∧ p.1 ≠ k := by
  induction m with
  | nil => simp [mapDelete] at h
  | cons q rest ih =>
    obtain ⟨qk, qv⟩ := q
    simp only [List.map_cons, List.nodup_cons] at hn
    by_cases hq : qk = k
    · subst hq
      simp only [mapDelete, if_true] at h
      refine ⟨List.mem_cons_of_mem _ h, ?_⟩
      intro hk
      exact hn.1 (hk ▸ List.mem_map_of_mem Prod.fst h)
    · simp only [mapDelete, if_neg hq, List.mem_cons] at h
      rcases h with h | h
      · exact ⟨by simp [h], by simp [h, hq]⟩
      · rcases ih hn.2 h with ⟨h2, h3⟩
        exact ⟨List.mem_cons_of_mem _ h2, h3⟩

/-! ### Characterization of the registry operations -/

theorem unregisterSocket_clientData (st : ServerState) (s : SocketId) :
    (unregisterSocket st s).clientData = st.clientData := by
  unfold unregisterSocket
  cases st.clientData s with
  | none => rfl
  | some l =>
    by_cases hl : l = ""
    · simp [hl]
    · simp only [if_neg hl]
      split <;> rfl

theorem unregisterSocket_live (st : ServerState) (s : SocketId) :
    (unregisterSocket st s).live = st.live := by
  unfold unregisterSocket
  cases st.clientData s with
  | none => rfl
  | some l =>
    by_cases hl : l = ""
    · simp [hl]
    · simp only [if_neg hl]
      split <;> rfl

theorem unregisterSocket_untruthy (st : ServerState) (s : SocketId)
    (h : truthy (st.clientData s) = false) : unregisterSocket st s = st := by
  unfold unregisterSocket
  cases hcd : st.clientData s with
  | none => rfl
  | some l =>
    rw [hcd] at h
    simp only [truthy, bne_eq_false_iff_eq] at h
    simp [h]

theorem unregisterSocket_get (st : ServerState) (s : SocketId) (k : Login)
    (hn : (st.userSockets.map Prod.fst).Nodup) :
    mapGet (unregisterSocket st s).userSockets k =
      match st.clientData s with
      | some l =>
        if l = "" then mapGet st.userSockets k
        else if l = k then
          (if (setDelete ((mapGet st.userSockets k).getD []) s).length > 0
           then some (setDelete ((mapGet st.userSockets k).getD []) s)
           else none)
        else mapGet st.userSockets k
      | none => mapGet st.userSockets k := by
  unfold unregisterSocket
  cases hcd : st.clientData s with
  | none => rfl
  | some l =>
    by_cases hl : l = ""
    · simp [hl]
    · simp only [if_neg hl]
      by_cases hlk : l = k
      · subst hlk
        simp only [if_true]
        split
        · rw [mapGet_mapSet]
          simp
        · rw [mapGet_mapDelete_self _ _ hn]
      · simp only [if_neg hlk]
        split
        · rw [mapGet_mapSet, if_neg hlk]
        · rw [mapGet_mapDelete_ne _ _ _ hlk]

theorem unregisterSocket_nodupKeys (st : ServerState) (s : SocketId)
    (hn : (st.userSockets.map Prod.fst).Nodup) :
    ((unregisterSocket st s).userSockets.map Prod.fst).Nodup := by
  unfold unregisterSocket
  cases st.clientData s with
  | none => exact hn
  | some l =>
    by_cases hl : l = ""
    · simpa [hl] using hn
    · simp only [if_neg hl]
      split
      · exact nodupKeys_mapSet _ _ _ hn
      · exact nodupKeys_mapDelete _ _ hn

theorem mem_unregisterSocket (st : ServerState) (s : SocketId)
    (p : Login × List SocketId) (hn : (st.userSockets.map Prod.fst).Nodup)
    (h : p ∈ (unregisterSocket st s).userSockets) :
    (p ∈ st.userSockets ∧ ∀ l, st.clientData s = some l → l ≠ "" → p.1 ≠ l) ∨
    (∃ l, st.clientData s = some l ∧ l ≠ "" ∧
      p = (l, setDelete ((mapGet st.userSockets l).getD []) s) ∧ p.2 ≠ []) := by
  unfold unregisterSocket at h
  cases hcd : st.clientData s with
  | none =>
    rw [hcd] at h
    exact Or.inl ⟨h, by simp⟩
  | some l =>
    rw [hcd] at h
    by_cases hl : l = ""
    · simp only [if_pos hl] at h
      refine Or.inl ⟨h, ?_⟩
      intro l2 hl2 hne
      cases hl2
      exact absurd hl hne
    · simp only [if_neg hl] at h
      split at h
      · rename_i hlen
        rcases mem_mapSet_sharp _ _ _ _ hn h with ⟨h2, h3⟩ | h2
        · refine Or.inl ⟨h2, ?_⟩
          intro l2 hl2 _
          cases hl2
          exact h3
        · refine Or.inr ⟨l, rfl, hl, h2, ?_⟩
          rw [h2]
          show setDelete ((mapGet st.userSockets l).getD []) s ≠ []
          intro hne
          rw [hne] at hlen
          simp at hlen
      · rcases mem_mapDelete_sharp _ _ _ hn h with ⟨h2, h3⟩
        refine Or.inl ⟨h2, ?_⟩
        intro l2 hl2 _
        cases hl2
        exact h3

theorem registerSocket_clientData (st : ServerState) (s : SocketId) :
    (registerSocket st s).clientData = st.clientData := by
  unfold registerSocket
  cases st.clientData s <;> rfl

theorem registerSocket_live (st : ServerState) (s : SocketId) :
    (registerSocket st s).live = st.live := by
  unfold registerSocket
  cases st.clientData s <;> rfl

theorem registerSocket_map (st : ServerState) (s : SocketId) (l : Login)
    (hcd : st.clientData s = some l) :
    (registerSocket st s).userSockets =
      mapSet st.userSockets l (setAdd ((mapGet st.userSockets l).getD []) s) := by
  unfold registerSocket
  rw [hcd]

theorem authorizeSocket_state (st : ServerState) (lg : Login) (s : SocketId) :
    (authorizeSocket st lg s).state =
      registerSocket
        { unregisterSocket st s with
          clientData := fun x =>
            if x = s then some lg else (unregisterSocket st s).clientData x } s := by
  rfl

theorem authorizeSocket_clientData (st : ServerState) (lg : Login) (s : SocketId) :
    (authorizeSocket st lg s).state.clientData =
      fun x => if x = s then some lg else st.clientData x := by
  rw [authorizeSocket_state, registerSocket_clientData]
  funext x
  by_cases hx : x = s
  · simp [hx]
  · simp [hx, unregisterSocket_clientData]

theorem authorizeSocket_live (st : ServerState) (lg : Login) (s : SocketId) :
    (authorizeSocket st lg s).state.live = st.live := by
  rw [authorizeSocket_state, registerSocket_live]
  exact unregisterSocket_live st s

theorem authorizeSocket_map (st : ServerState) (lg : Login) (s : SocketId) :
    (authorizeSocket st lg s).state.userSockets =
      mapSet (unregisterSocket st s).userSockets lg
        (setAdd ((mapGet (unregisterSocket st s).userSockets lg).getD []) s) := by
  rw [authorizeSocket_state]
  rw [registerSocket_map _ s lg (by simp)]

/-! ### Preservation of the registry invariant -/

theorem inv_unregister_comp3 (st : ServerState) (s : SocketId)
    (h1 : (st.userSockets.map Prod.fst).Nodup)
    (h3 : ∀ p ∈ st.userSockets, ∀ x ∈ p.2, p.1 = "" ∨ st.clientData x = some p.1) :
    ∀ p ∈ (unregisterSocket st s).userSockets, ∀ x ∈ p.2,
      p.1 = "" ∨ st.clientData x = some p.1 := by
  intro p hp x hx
  rcases mem_unregisterSocket st s p h1 hp with ⟨hp2, _⟩ | ⟨l, hcds, hlne, hpeq, _⟩
  · exact h3 p hp2 x hx
  · rw [hpeq] at hx
    have hxmem := (mem_setDelete _ _ _).1 hx
    cases hget : mapGet st.userSockets l with
    | none =>
      rw [hget] at hxmem
      simp at hxmem
    | some v =>
      rw [hget] at hxmem
      simp only [Option.getD_some] at hxmem
      have := h3 (l, v) (mapGet_mem _ _ _ hget) x hxmem.1
      rw [hpeq]
      exact this

theorem inv_unregister_comp5 (st : ServerState) (s : SocketId)
    (h1 : (st.userSockets.map Prod.fst).Nodup)
    (h5 : ∀ p ∈ st.userSockets, p.1 ≠ "" → ∀ x ∈ p.2, x ∈ st.live) :
    ∀ p ∈ (unregisterSocket st s).userSockets, p.1 ≠ "" → ∀ x ∈ p.2, x ∈ st.live := by
  intro p hp hpne x hx
  rcases mem_unregisterSocket st s p h1 hp with ⟨hp2, _⟩ | ⟨l, hcds, hlne, hpeq, _⟩
  · exact h5 p hp2 hpne x hx
  · rw [hpeq] at hx
    have hxmem := (mem_setDelete _ _ _).1 hx
    cases hget : mapGet st.userSockets l with
    | none =>
      rw [hget] at hxmem
      simp at hxmem
    | some v =>
      rw [hget] at hxmem
      simp only [Option.getD_some] at hxmem
      rw [hpeq] at hpne
      exact h5 (l, v) (mapGet_mem _ _ _ hget) hpne x hxmem.1

theorem inv_authorize (st : ServerState) (s : SocketId) (lg : Login)
    (hInv : Inv st) (hs : s ∈ st.live) : Inv (authorizeSocket st lg s).state := by
  obtain ⟨h1, h2, h3, h4, h5⟩ := hInv
  have hmap := authorizeSocket_map st lg s
  have hcd := authorizeSocket_clientData st lg s
  have hlive := authorizeSocket_live st lg s
  have hn1 : ((unregisterSocket st s).userSockets.map Prod.fst).Nodup :=
    unregisterSocket_nodupKeys st s h1
  have inv3st1 := inv_unregister_comp3 st s h1 h3
  have inv5st1 := inv_unregister_comp5 st s h1 h5
  refine ⟨?_, ?_, ?_, ?_, ?_⟩
  · rw [hmap]
    exact nodupKeys_mapSet _ _ _ hn1
  · intro p hp
    rw [hmap] at hp
    rcases mem_mapSet_sharp _ _ _ _ hn1 hp with ⟨hp2, _⟩ | hp2
    · rcases mem_unregisterSocket st s p h1 hp2 with ⟨hp3, _⟩ | ⟨l, _, _, _, hne⟩
      · exact h2 p hp3
      · exact hne
    · rw [hp2]
      exact setAdd_ne_nil _ _
  · intro p hp x hx
    rw [hcd]
    rw [hmap] at hp
    rcases mem_mapSet_sharp _ _ _ _ hn1 hp with ⟨hp2, hpne⟩ | hp2
    · rcases inv3st1 p hp2 x hx with hc | hc
      · exact Or.inl hc
      · by_cases hxs : x = s
        · rcases mem_unregisterSocket st s p h1 hp2 with ⟨_, hforall⟩ | ⟨l, _, _, hpeq, _⟩
          · by_cases hpe : p.1 = ""
            · exact Or.inl hpe
            · exact absurd rfl (hforall p.1 (hxs ▸ hc) hpe)
          · rw [hpeq] at hx
            exact absurd hxs ((mem_setDelete _ _ _).1 hx).2
        · simp only [if_neg hxs]
          exact Or.inr hc
    · rw [hp2] at hx ⊢
      by_cases hxs : x = s
      · exact Or.inr (by simp [hxs])
      · rcases (mem_setAdd _ _ _).1 hx with hxA | hxA
        · cases hget : mapGet (unregisterSocket st s).userSockets lg with
          | none =>
            rw [hget] at hxA
            simp at hxA
          | some v =>
            rw [hget] at hxA
            simp only [Option.getD_some] at hxA
            rcases inv3st1 (lg, v) (mapGet_mem _ _ _ hget) x hxA with hc | hc
            · exact Or.inl hc
            · simp only [if_neg hxs]
              exact Or.inr hc
        · exact absurd hxA hxs
  · intro x hx L hcdx
    rw [hlive] at hx
    rw [hcd] at hcdx
    replace hcdx : (if x = s then some lg else st.clientData x) = some L := hcdx
    by_cases hxs : x = s
    · rw [if_pos hxs] at hcdx
      cases hcdx
      refine ⟨setAdd ((mapGet (unregisterSocket st s).userSockets lg).getD []) s, ?_, ?_⟩
      · rw [hmap, mapGet_mapSet]
        simp
      · exact (mem_setAdd _ _ _).2 (Or.inr hxs)
    · simp only [if_neg hxs] at hcdx
      obtain ⟨v, hv, hxv⟩ := h4 x hx L hcdx
      have hget1 : x ∈ (mapGet (unregisterSocket st s).userSockets L).getD [] := by
        rw [unregisterSocket_get st s L h1]
        cases hcds : st.clientData s with
        | none =>
          rw [hv]
          simpa using hxv
        | some l =>
          by_cases hl : l = ""
          · simp only [if_pos hl]
            rw [hv]
            simpa using hxv
          · simp only [if_neg hl]
            by_cases hlL : l = L
            · simp only [if_pos hlL]
              rw [hv]
              simp only [Option.getD_some]
              have hxr : x ∈ setDelete v s := (mem_setDelete _ _ _).2 ⟨hxv, hxs⟩
              rw [if_pos (by simpa using List.length_pos.2 (List.ne_nil_of_mem hxr))]
              simpa using hxr
            · simp only [if_neg hlL]
              rw [hv]
              simpa using hxv
      by_cases hLlg : lg = L
      · subst hLlg
        refine ⟨setAdd ((mapGet (unregisterSocket st s).userSockets lg).getD []) s, ?_, ?_⟩
        · rw [hmap, mapGet_mapSet]
          simp
        · exact (mem_setAdd _ _ _).2 (Or.inl hget1)
      · have hgetSome : (mapGet (unregisterSocket st s).userSockets L).isSome := by
          cases hg : mapGet (unregisterSocket st s).userSockets L with
          | none =>
            rw [hg] at hget1
            simp at hget1
          | some w => simp
        cases hg : mapGet (unregisterSocket st s).userSockets L with
        | none =>
          rw [hg] at hgetSome
          simp at hgetSome
        | some w =>
          refine ⟨w, ?_, ?_⟩
          · rw [hmap, mapGet_mapSet, if_neg hLlg]
            exact hg
          · rw [hg] at hget1
            simpa using hget1
  · intro p hp hpne x hx
    rw [hlive]
    rw [hmap] at hp
    rcases mem_mapSet_sharp _ _ _ _ hn1 hp with ⟨hp2, _⟩ | hp2
    · exact inv5st1 p hp2 hpne x hx
    · rw [hp2] at hx
      rcases (mem_setAdd _ _ _).1 hx with hxA | hxA
      · cases hget : mapGet (unregisterSocket st s).userSockets lg with
        | none =>
          rw [hget] at hxA
          simp at hxA
        | some v =>
          rw [hget] at hxA
          simp only [Option.getD_some] at hxA
          rw [hp2] at hpne
          exact inv5st1 (lg, v) (mapGet_mem _ _ _ hget) hpne x hxA
      · rw [hxA]
        exact hs

theorem inv_disconnect (st : ServerState) (s : SocketId) (hInv : Inv st) :
    Inv { unregisterSocket st s with
          live := (unregisterSocket st s).live.filter (fun x => x ≠ s) } := by
  obtain ⟨h1, h2, h3, h4, h5⟩ := hInv
  have hn1 := unregisterSocket_nodupKeys st s h1
  have inv3st1 := inv_unregister_comp3 st s h1 h3
  have inv5st1 := inv_unregister_comp5 st s h1 h5
  have hcd1 := unregisterSocket_clientData st s
  have hlive1 := unregisterSocket_live st s
  refine ⟨hn1, ?_, ?_, ?_, ?_⟩
  · intro p hp
    rcases mem_unregisterSocket st s p h1 hp with ⟨hp2, _⟩ | ⟨l, _, _, _, hne⟩
    · exact h2 p hp2
    · exact hne
  · intro p hp x hx
    show p.1 = "" ∨ (unregisterSocket st s).clientData x = some p.1
    rw [hcd1]
    exact inv3st1 p hp x hx
  · intro x hx L hcdx
    replace hcdx : st.clientData x = some L := by
      rw [← hcd1]
      exact hcdx
    replace hx : x ∈ (unregisterSocket st s).live.filter (fun y => y ≠ s) := hx
    rw [hlive1] at hx
    rw [List.mem_filter] at hx
    have hxlive : x ∈ st.live := hx.1
    have hxs : x ≠ s := by simpa using hx.2
    obtain ⟨v, hv, hxv⟩ := h4 x hxlive L hcdx
    show ∃ w, mapGet (unregisterSocket st s).userSockets L = some w ∧ x ∈ w
    rw [unregisterSocket_get st s L h1]
    cases hcds : st.clientData s with
    | none => exact ⟨v, hv, hxv⟩
    | some l =>
      by_cases hl : l = ""
      · simp only [if_pos hl]
        exact ⟨v, hv, hxv⟩
      · simp only [if_neg hl]
        by_cases hlL : l = L
        · simp only [if_pos hlL]
          rw [hv]
          simp only [Option.getD_some]
          have hxr : x ∈ setDelete v s := (mem_setDelete _ _ _).2 ⟨hxv, hxs⟩
          rw [if_pos (by simpa using List.length_pos.2 (List.ne_nil_of_mem hxr))]
          exact ⟨_, rfl, hxr⟩
        · simp only [if_neg hlL]
          exact ⟨v, hv, hxv⟩
  · intro p hp hpne x hx
    have hxlive : x ∈ st.live := inv5st1 p hp hpne x hx
    have hxs : x ≠ s := by
      intro hxeq
      rcases mem_unregisterSocket st s p h1 hp with ⟨hp2, hforall⟩ | ⟨l, _, _, hpeq, _⟩
      · rcases h3 p hp2 x hx with hc | hc
        · exact hpne hc
        · exact hforall p.1 (hxeq ▸ hc) hpne rfl
      · rw [hpeq] at hx
        exact ((mem_setDelete _ _ _).1 hx).2 hxeq
    show x ∈ (unregisterSocket st s).live.filter (fun y => y ≠ s)
    rw [hlive1, List.mem_filter]
    exact ⟨hxlive, by simpa using hxs⟩

theorem inv_connect (st : ServerState) (s : SocketId) (hInv : Inv st)
    (hs : s ∉ st.live) :
    Inv { live := st.live ++ [s],
          clientData := fun x => if x = s then none else st.clientData x,
          userSockets := st.userSockets } := by
  obtain ⟨h1, h2, h3, h4, h5⟩ := hInv
  refine ⟨h1, h2, ?_, ?_, ?_⟩
  · intro p hp x hx
    by_cases hpe : p.1 = ""
    · exact Or.inl hpe
    · have hxlive := h5 p hp hpe x hx
      have hxs : x ≠ s := fun hxeq => hs (hxeq ▸ hxlive)
      rcases h3 p hp x hx with hc | hc
      · exact Or.inl hc
      · refine Or.inr ?_
        show (if x = s then none else st.clientData x) = some p.1
        rw [if_neg hxs]
        exact hc
  · intro x hx L hcdx
    replace hcdx : (if x = s then none else st.clientData x) = some L := hcdx
    by_cases hxs : x = s
    · rw [if_pos hxs] at hcdx
      cases hcdx
    · rw [if_neg hxs] at hcdx
      replace hx : x ∈ st.live ++ [s] := hx
      rw [List.mem_append] at hx
      rcases hx with hx | hx
      · exact h4 x hx L hcdx
      · rw [List.mem_singleton] at hx
        exact absurd hx hxs
  · intro p hp hpne x hx
    show x ∈ st.live ++ [s]
    exact List.mem_append_left _ (h5 p hp hpne x hx)

theorem inv_init : Inv initState :=
  ⟨by simp [initState], by simp [initState], by simp [initState],
   by simp [initState], by simp [initState]⟩

theorem stepFn_chat_state (st : ServerState) (s : SocketId) (body : Option String) :
    (stepFn st (Ev.chat s body)).state = st := by
  unfold stepFn stepE
  by_cases hs : s ∈ st.live
  · simp only [if_pos hs]
    by_cases ht : truthy (st.clientData s) = false
    · simp only [if_pos ht]
      cases body <;> rfl
    · simp only [if_neg ht]
      cases st.clientData s <;> rfl
  · simp only [if_neg hs]

theorem stepFn_disconnect_state (st : ServerState) (s : SocketId) (hs : s ∈ st.live) :
    (stepFn st (Ev.disconnect s)).state =
      { unregisterSocket st s with
        live := (unregisterSocket st s).live.filter (fun x => x ≠ s) } := by
  unfold stepFn stepE
  simp only [if_pos hs]
  cases st.clientData s with
  | none => rfl
  | some l =>
    dsimp only
    by_cases hcond : l ≠ "" ∧ (mapGet (unregisterSocket st s).userSockets l).isNone = true
    · rw [if_pos hcond]
    · rw [if_neg hcond]

theorem inv_step (st : ServerState) (e : Ev) (hInv : Inv st) :
    Inv (stepFn st e).state := by
  cases e with
  | connect s =>
    by_cases hs : s ∈ st.live
    · simpa [stepFn, stepE, hs] using hInv
    · have h := inv_connect st s hInv hs
      simpa [stepFn, stepE, hs] using h
  | authOk s lg =>
    by_cases hs : s ∈ st.live
    · have h := inv_authorize st s lg hInv hs
      simpa [stepFn, stepE, hs] using h
    · simpa [stepFn, stepE, hs] using hInv
  | authFail s err =>
    by_cases hs : s ∈ st.live <;> simpa [stepFn, stepE, hs] using hInv
  | regOk s lg =>
    by_cases hs : s ∈ st.live <;> simpa [stepFn, stepE, hs] using hInv
  | regFail s err =>
    by_cases hs : s ∈ st.live <;> simpa [stepFn, stepE, hs] using hInv
  | chat s body =>
    rw [stepFn_chat_state]
    exact hInv
  | disconnect s =>
    by_cases hs : s ∈ st.live
    · rw [stepFn_disconnect_state st s hs]
      exact inv_disconnect st s hInv
    · simpa [stepFn, stepE, hs] using hInv

theorem inv_run (es : List Ev) (st : ServerState) (hInv : Inv st) :
    Inv (es.foldl (fun st2 e => (stepFn st2 e).state) st) := by
  induction es generalizing st with
  | nil => exact hInv
  | cons e rest ih => exact ih _ (inv_step st e hInv)

theorem reachable_inv (st : ServerState) (h : Reachable st) : Inv st := by
  obtain ⟨es, rfl⟩ := h
  exact inv_run es initState inv_init

/-! ### Presence events emitted by the handlers -/

theorem inv_present_iff (st : ServerState)
    (h2 : ∀ p ∈ st.userSockets, p.2 ≠ []) (k : Login) :
    ((mapGet st.userSockets k).isSome = true) ↔ setOf st k ≠ [] := by
  cases hg : mapGet st.userSockets k with
  | none => simp [setOf, hg]
  | some v =>
    simp only [setOf, hg, Option.getD_some, Option.isSome_some]
    constructor
    · intro _
      exact h2 (k, v) (mapGet_mem _ _ _ hg)
    · intro _
      trivial

theorem authorizeSocket_pevents (st : ServerState) (lg : Login) (s : SocketId) :
    (authorizeSocket st lg s).pevents =
      (match st.clientData s with
       | some p =>
         if p ≠ "" ∧ p ≠ lg ∧
             (mapGet (authorizeSocket st lg s).state.userSockets p).isNone
         then [PEvent.leave p] else []
       | none => []) ++
      (if (mapGet st.userSockets lg).isSome then [] else [PEvent.join lg]) := by
  unfold authorizeSocket
  cases st.clientData s with
  | none => rfl
  | some p =>
    dsimp only
    split
    · rename_i q heq
      split at heq
      · rename_i hc
        cases heq
        rw [if_pos hc]
      · simp at heq
    · rename_i heq
      split at heq
      · simp at heq
      · rename_i hc
        rw [if_neg hc]

theorem authorizeSocket_deliveries (st : ServerState) (lg : Login) (s : SocketId) :
    (authorizeSocket st lg s).deliveries =
      (match st.clientData s with
       | some p =>
         if p ≠ "" ∧ p ≠ lg ∧
             (mapGet (authorizeSocket st lg s).state.userSockets p).isNone
         then notifyUserLeave (authorizeSocket st lg s).state p else []
       | none => []) ++
      (if (mapGet st.userSockets lg).isSome then []
       else notifyUserJoin (authorizeSocket st lg s).state lg) := by
  unfold authorizeSocket
  cases st.clientData s with
  | none => rfl
  | some p =>
    dsimp only
    split
    · rename_i q heq
      split at heq
      · rename_i hc
        cases heq
        rw [if_pos hc]
      · simp at heq
    · rename_i heq
      split at heq
      · simp at heq
      · rename_i hc
        rw [if_neg hc]

theorem trans_absurd_fwd (X : List SocketId) :
    (if X = [] ∧ ¬X = [] then (1 : Nat) else 0) = 0 := by
  rw [if_neg]
  rintro ⟨a, b⟩
  exact b a

theorem trans_absurd_bwd (X : List SocketId) :
    (if ¬X = [] ∧ X = [] then (1 : Nat) else 0) = 0 := by
  rw [if_neg]
  rintro ⟨a, b⟩
  exact a b

theorem authorize_pevents_spec (st : ServerState) (s : SocketId) (lg : Login)
    (hInv : Inv st) (hs : s ∈ st.live) (L : Login) :
    ((authorizeSocket st lg s).pevents.count (PEvent.join L) =
      if setOf st L = [] ∧ ¬setOf (authorizeSocket st lg s).state L = [] then 1 else 0) ∧
    ((authorizeSocket st lg s).pevents.count (PEvent.leave L) =
      if ¬setOf st L = [] ∧ setOf (authorizeSocket st lg s).state L = [] then 1 else 0) := by
  obtain ⟨h1, h2, h3, h4, h5⟩ := hInv
  have hmap := authorizeSocket_map st lg s
  have hpev := authorizeSocket_pevents st lg s
  have hpost_lg : ¬setOf (authorizeSocket st lg s).state lg = [] := by
    unfold setOf
    rw [hmap, mapGet_mapSet, if_pos rfl]
    simp only [Option.getD_some]
    exact setAdd_ne_nil _ _
  have hmget_ne : ∀ k, ¬lg = k →
      mapGet (authorizeSocket st lg s).state.userSockets k =
        mapGet (unregisterSocket st s).userSockets k := by
    intro k hk
    rw [hmap, mapGet_mapSet, if_neg hk]
  have hjoin_count : (if (mapGet st.userSockets lg).isSome then []
        else [PEvent.join lg]).count (PEvent.join L) =
      if setOf st L = [] ∧ ¬setOf (authorizeSocket st lg s).state L = [] ∧ L = lg
      then 1 else 0 := by
    by_cases hLlg : L = lg
    · subst hLlg
      by_cases hb : (mapGet st.userSockets L).isSome = true
      · have hC : ¬(setOf st L = [] ∧
            ¬setOf (authorizeSocket st L s).state L = [] ∧ L = L) := by
          rintro ⟨ha, -, -⟩
          exact (inv_present_iff st h2 L).1 hb ha
        rw [if_pos hb, if_neg hC]
        rfl
      · have hC : setOf st L = [] ∧
            ¬setOf (authorizeSocket st L s).state L = [] ∧ L = L := by
          refine ⟨?_, hpost_lg, rfl⟩
          by_contra hne
          exact hb ((inv_present_iff st h2 L).2 hne)
        rw [if_neg hb, if_pos hC]
        simp
    · have hC : ¬(setOf st L = [] ∧
          ¬setOf (authorizeSocket st lg s).state L = [] ∧ L = lg) := by
        rintro ⟨-, -, h⟩
        exact hLlg h
      rw [if_neg hC]
      by_cases hb : (mapGet st.userSockets lg).isSome = true
      · rw [if_pos hb]
        rfl
      · rw [if_neg hb]
        simp [List.count_singleton', Ne.symm hLlg]
  have hjoin_zero : (if (mapGet st.userSockets lg).isSome then []
      else [PEvent.join lg]).count (PEvent.leave L) = 0 := by
    split
    · rfl
    · simp [List.count_singleton']
  cases hcds : st.clientData s with
  | none =>
    have hst1 : unregisterSocket st s = st :=
      unregisterSocket_untruthy st s (by rw [hcds]; rfl)
    rw [hpev, hcds]
    dsimp only
    simp only [List.nil_append]
    constructor
    · rw [hjoin_count]
      by_cases hLlg : L = lg
      · subst hLlg
        by_cases hL0 : setOf st L = [] <;>
          by_cases hL1 : setOf (authorizeSocket st L s).state L = [] <;>
          simp [hL0, hL1]
      · have hC : ¬(setOf st L = [] ∧
            ¬setOf (authorizeSocket st lg s).state L = [] ∧ L = lg) := by
          rintro ⟨-, -, h⟩
          exact hLlg h
        rw [if_neg hC]
        have hsame : setOf (authorizeSocket st lg s).state L = setOf st L := by
          unfold setOf
          rw [hmget_ne L (fun h => hLlg h.symm), hst1]
        rw [hsame, trans_absurd_fwd]
    · rw [hjoin_zero]
      by_cases hLlg : L = lg
      · subst hLlg
        have hC : ¬(¬setOf st L = [] ∧ setOf (authorizeSocket st L s).state L = []) := by
          rintro ⟨-, hb⟩
          exact hpost_lg hb
        rw [if_neg hC]
      · have hsame : setOf (authorizeSocket st lg s).state L = setOf st L := by
          unfold setOf
          rw [hmget_ne L (fun h => hLlg h.symm), hst1]
        rw [hsame, trans_absurd_bwd]
  | some p =>
    by_cases hp : p = ""
    · subst hp
      have hst1 : unregisterSocket st s = st :=
        unregisterSocket_untruthy st s (by rw [hcds]; rfl)
      rw [hpev, hcds]
      dsimp only
      have hCe : ¬(("" : Login) ≠ "" ∧ ("" : Login) ≠ lg ∧
          (mapGet (authorizeSocket st lg s).state.userSockets "").isNone = true) := by
        rintro ⟨a, -, -⟩
        exact a rfl
      rw [if_neg hCe]
      simp only [List.nil_append]
      constructor
      · rw [hjoin_count]
        by_cases hLlg : L = lg
        · subst hLlg
          by_cases hL0 : setOf st L = [] <;>
            by_cases hL1 : setOf (authorizeSocket st L s).state L = [] <;>
            simp [hL0, hL1]
        · have hC : ¬(setOf st L = [] ∧
              ¬setOf (authorizeSocket st lg s).state L = [] ∧ L = lg) := by
            rintro ⟨-, -, h⟩
            exact hLlg h
          rw [if_neg hC]
          have hsame : setOf (authorizeSocket st lg s).state L = setOf st L := by
            unfold setOf
            rw [hmget_ne L (fun h => hLlg h.symm), hst1]
          rw [hsame, trans_absurd_fwd]
      · rw [hjoin_zero]
        by_cases hLlg : L = lg
        · subst hLlg
          have hC : ¬(¬setOf st L = [] ∧
              setOf (authorizeSocket st L s).state L = []) := by
            rintro ⟨-, hb⟩
            exact hpost_lg hb
          rw [if_neg hC]
        · have hsame : setOf (authorizeSocket st lg s).state L = setOf st L := by
            unfold setOf
            rw [hmget_ne L (fun h => hLlg h.symm), hst1]
          rw [hsame, trans_absurd_bwd]
    · obtain ⟨v0, hv0, hsv0⟩ := h4 s hs p hcds
      have hstp : ¬setOf st p = [] := by
        unfold setOf
        rw [hv0]
        simp only [Option.getD_some]
        intro h
        rw [h] at hsv0
        simp at hsv0
      have hget1 : ∀ k, mapGet (unregisterSocket st s).userSockets k =
          if p = k then
            (if (setDelete v0 s).length > 0 then some (setDelete v0 s) else none)
          else mapGet st.userSockets k := by
        intro k
        rw [unregisterSocket_get st s k h1, hcds]
        dsimp only
        by_cases hpk : p = k
        · subst hpk
          rw [if_neg hp, if_pos rfl, if_pos rfl, hv0]
          simp only [Option.getD_some]
        · rw [if_neg hp, if_neg hpk, if_neg hpk]
      rw [hpev, hcds]
      dsimp only
      by_cases hplg : p = lg
      · subst hplg
        have hCe : ¬(p ≠ "" ∧ p ≠ p ∧
            (mapGet (authorizeSocket st p s).state.userSockets p).isNone = true) := by
          rintro ⟨-, a, -⟩
          exact a rfl
        rw [if_neg hCe]
        simp only [List.nil_append]
        constructor
        · rw [hjoin_count]
          by_cases hLp : L = p
          · subst hLp
            have hCa : ¬(setOf st L = [] ∧
                ¬setOf (authorizeSocket st L s).state L = [] ∧ L = L) := by
              rintro ⟨a, -, -⟩
              exact hstp a
            have hCb : ¬(setOf st L = [] ∧
                ¬setOf (authorizeSocket st L s).state L = []) := by
              rintro ⟨a, -⟩
              exact hstp a
            rw [if_neg hCa, if_neg hCb]
          · have hC : ¬(setOf st L = [] ∧
                ¬setOf (authorizeSocket st p s).state L = [] ∧ L = p) := by
              rintro ⟨-, -, h⟩
              exact hLp h
            rw [if_neg hC]
            have hsame : setOf (authorizeSocket st p s).state L = setOf st L := by
              unfold setOf
              rw [hmget_ne L (fun h => hLp h.symm), hget1 L, if_neg (fun h => hLp h.symm)]
            rw [hsame, trans_absurd_fwd]
        · rw [hjoin_zero]
          by_cases hLp : L = p
          · subst hLp
            have hC : ¬(¬setOf st L = [] ∧
                setOf (authorizeSocket st L s).state L = []) := by
              rintro ⟨-, hb⟩
              exact hpost_lg hb
            rw [if_neg hC]
          · have hsame : setOf (authorizeSocket st p s).state L = setOf st L := by
              unfold setOf
              rw [hmget_ne L (fun h => hLp h.symm), hget1 L, if_neg (fun h => hLp h.symm)]
            rw [hsame, trans_absurd_bwd]
      · have hgetp : mapGet (authorizeSocket st lg s).state.userSockets p =
            (if (setDelete v0 s).length > 0 then some (setDelete v0 s) else none) := by
          rw [hmget_ne p (fun h => hplg h.symm), hget1 p, if_pos rfl]
        have hsetp : setOf (authorizeSocket st lg s).state p = setDelete v0 s := by
          unfold setOf
          rw [hgetp]
          split
          · simp
          · rename_i hlen
            have hnil : setDelete v0 s = [] := by
              cases hd : setDelete v0 s with
              | nil => rfl
              | cons a tl =>
                rw [hd] at hlen
                simp at hlen
            rw [hnil]
            rfl
        constructor
        · rw [List.count_append, hjoin_count]
          have hleave0 : (if p ≠ "" ∧ p ≠ lg ∧
              (mapGet (authorizeSocket st lg s).state.userSockets p).isNone
              then [PEvent.leave p] else []).count (PEvent.join L) = 0 := by
            split
            · simp [List.count_singleton']
            · rfl
          rw [hleave0, Nat.zero_add]
          by_cases hLlg : L = lg
          · subst hLlg
            by_cases hL0 : setOf st L = [] <;>
              by_cases hL1 : setOf (authorizeSocket st L s).state L = [] <;>
              simp [hL0, hL1]
          · have hC : ¬(setOf st L = [] ∧
                ¬setOf (authorizeSocket st lg s).state L = [] ∧ L = lg) := by
              rintro ⟨-, -, h⟩
              exact hLlg h
            rw [if_neg hC]
            by_cases hLp : L = p
            · subst hLp
              have hCb : ¬(setOf st L = [] ∧
                  ¬setOf (authorizeSocket st lg s).state L = []) := by
                rintro ⟨a, -⟩
                exact hstp a
              rw [if_neg hCb]
            · have hsame : setOf (authorizeSocket st lg s).state L = setOf st L := by
                unfold setOf
                rw [hmget_ne L (fun h => hLlg h.symm), hget1 L, if_neg (fun h => hLp h.symm)]
              rw [hsame, trans_absurd_fwd]
        · rw [List.count_append, hjoin_zero, Nat.add_zero]
          by_cases hLp : L = p
          · subst hLp
            have hcond : (L ≠ "" ∧ L ≠ lg ∧
                (mapGet (authorizeSocket st lg s).state.userSockets L).isNone = true) ↔
                setDelete v0 s = [] := by
              rw [hgetp]
              constructor
              · rintro ⟨-, -, hc⟩
                by_contra hne
                rw [if_pos (by simpa using List.length_pos.2 hne)] at hc
                simp at hc
              · intro hc
                refine ⟨hp, hplg, ?_⟩
                rw [hc]
                simp
            by_cases hre : setDelete v0 s = []
            · rw [if_pos (hcond.2 hre)]
              rw [if_pos ⟨hstp, by rw [hsetp]; exact hre⟩]
              simp
            · rw [if_neg (fun hc => hre (hcond.1 hc))]
              have hCb : ¬(¬setOf st L = [] ∧
                  setOf (authorizeSocket st lg s).state L = []) := by
                rintro ⟨-, hb⟩
                rw [hsetp] at hb
                exact hre hb
              rw [if_neg hCb]
              rfl
          · have hcnt0 : (if p ≠ "" ∧ p ≠ lg ∧
                (mapGet (authorizeSocket st lg s).state.userSockets p).isNone
                then [PEvent.leave p] else []).count (PEvent.leave L) = 0 := by
              have hpl : ¬p = L := fun h => hLp h.symm
              split
              · simp [List.count_singleton', hpl]
              · rfl
            rw [hcnt0]
            by_cases hLlg : L = lg
            · subst hLlg
              have hC : ¬(¬setOf st L = [] ∧
                  setOf (authorizeSocket st L s).state L = []) := by
                rintro ⟨-, hb⟩
                exact hpost_lg hb
              rw [if_neg hC]
            · have hsame : setOf (authorizeSocket st lg s).state L = setOf st L := by
                unfold setOf
                rw [hmget_ne L (fun h => hLlg h.symm), hget1 L, if_neg (fun h => hLp h.symm)]
              rw [hsame, trans_absurd_bwd]

theorem stepFn_authOk (st : ServerState) (s : SocketId) (lg : Login)
    (hs : s ∈ st.live) :
    stepFn st (Ev.authOk s lg) =
      ⟨(authorizeSocket st lg s).state, (authorizeSocket st lg s).pevents,
       (s, Out.authReply true (some lg) none) :: (authorizeSocket st lg s).deliveries⟩ := by
  unfold stepFn stepE
  dsimp only
  rw [if_pos hs]

theorem stepFn_chat_pevents (st : ServerState) (s : SocketId) (body : Option String) :
    (stepFn st (Ev.chat s body)).pevents = [] := by
  unfold stepFn stepE
  by_cases hs : s ∈ st.live
  · simp only [if_pos hs]
    by_cases ht : truthy (st.clientData s) = false
    · simp only [if_pos ht]
      cases body <;> rfl
    · simp only [if_neg ht]
      cases st.clientData s <;> rfl
  · simp only [if_neg hs]

theorem stepFn_disconnect_pevents (st : ServerState) (s : SocketId) (hs : s ∈ st.live) :
    (stepFn st (Ev.disconnect s)).pevents =
      match st.clientData s with
      | some l =>
        if l ≠ "" ∧ (mapGet (unregisterSocket st s).userSockets l).isNone
        then [PEvent.leave l] else []
      | none => [] := by
  unfold stepFn stepE
  simp only [if_pos hs]
  cases st.clientData s with
  | none => rfl
  | some l =>
    dsimp only
    by_cases hcond : l ≠ "" ∧ (mapGet (unregisterSocket st s).userSockets l).isNone = true
    · simp only [if_pos hcond]
    · simp only [if_neg hcond]

theorem disconnect_pevents_spec (st : ServerState) (s : SocketId)
    (hInv : Inv st) (hs : s ∈ st.live) (L : Login) :
    ((stepFn st (Ev.disconnect s)).pevents.count (PEvent.join L) =
      if setOf st L = [] ∧ ¬setOf (stepFn st (Ev.disconnect s)).state L = []
      then 1 else 0) ∧
    ((stepFn st (Ev.disconnect s)).pevents.count (PEvent.leave L) =
      if ¬setOf st L = [] ∧ setOf (stepFn st (Ev.disconnect s)).state L = []
      then 1 else 0) := by
  obtain ⟨h1, h2, h3, h4, h5⟩ := hInv
  have hpev := stepFn_disconnect_pevents st s hs
  have hsetOf : ∀ k, setOf (stepFn st (Ev.disconnect s)).state k =
      setOf (unregisterSocket st s) k := by
    intro k
    rw [stepFn_disconnect_state st s hs]
    rfl
  rw [hpev]
  simp only [hsetOf]
  cases hcds : st.clientData s with
  | none =>
    have hst1 : unregisterSocket st s = st :=
      unregisterSocket_untruthy st s (by rw [hcds]; rfl)
    dsimp only
    rw [hst1]
    exact ⟨by rw [trans_absurd_fwd]; rfl, by rw [trans_absurd_bwd]; rfl⟩
  | some l =>
    dsimp only
    by_cases hl : l = ""
    · subst hl
      have hst1 : unregisterSocket st s = st :=
        unregisterSocket_untruthy st s (by rw [hcds]; rfl)
      have hCe : ¬(("" : Login) ≠ "" ∧
          (mapGet (unregisterSocket st s).userSockets "").isNone = true) := by
        rintro ⟨a, -⟩
        exact a rfl
      rw [if_neg hCe, hst1]
      exact ⟨by rw [trans_absurd_fwd]; rfl, by rw [trans_absurd_bwd]; rfl⟩
    · obtain ⟨v0, hv0, hsv0⟩ := h4 s hs l hcds
      have hstl : ¬setOf st l = [] := by
        unfold setOf
        rw [hv0]
        simp only [Option.getD_some]
        intro h
        rw [h] at hsv0
        simp at hsv0
      have hget1 : ∀ k, mapGet (unregisterSocket st s).userSockets k =
          if l = k then
            (if (setDelete v0 s).length > 0 then some (setDelete v0 s) else none)
          else mapGet st.userSockets k := by
        intro k
        rw [unregisterSocket_get st s k h1, hcds]
        dsimp only
        by_cases hlk : l = k
        · subst hlk
          rw [if_neg hl, if_pos rfl, if_pos rfl, hv0]
          simp only [Option.getD_some]
        · rw [if_neg hl, if_neg hlk, if_neg hlk]
      have hset1l : setOf (unregisterSocket st s) l = setDelete v0 s := by
        unfold setOf
        rw [hget1 l, if_pos rfl]
        split
        · simp
        · rename_i hlen
          have hnil : setDelete v0 s = [] := by
            cases hd : setDelete v0 s with
            | nil => rfl
            | cons a tl =>
              rw [hd] at hlen
              simp at hlen
          rw [hnil]
          rfl
      constructor
      · have hj0 : (if l ≠ "" ∧
            (mapGet (unregisterSocket st s).userSockets l).isNone
            then [PEvent.leave l] else []).count (PEvent.join L) = 0 := by
          split
          · simp [List.count_singleton']
          · rfl
        rw [hj0]
        by_cases hLl : L = l
        · subst hLl
          have hC : ¬(setOf st L = [] ∧ ¬setOf (unregisterSocket st s) L = []) := by
            rintro ⟨a, -⟩
            exact hstl a
          rw [if_neg hC]
        · have hsame : setOf (unregisterSocket st s) L = setOf st L := by
            unfold setOf
            rw [hget1 L, if_neg (fun h => hLl h.symm)]
          rw [hsame, trans_absurd_fwd]
      · by_cases hLl : L = l
        · subst hLl
          have hcond : (L ≠ "" ∧
              (mapGet (unregisterSocket st s).userSockets L).isNone = true) ↔
              setDelete v0 s = [] := by
            rw [hget1 L, if_pos rfl]
            constructor
            · rintro ⟨-, hc⟩
              by_contra hne
              rw [if_pos (by simpa using List.length_pos.2 hne)] at hc
              simp at hc
            · intro hc
              refine ⟨hl, ?_⟩
              rw [hc]
              simp
          by_cases hre : setDelete v0 s = []
          · rw [if_pos (hcond.2 hre)]
            rw [if_pos ⟨hstl, by rw [hset1l]; exact hre⟩]
            simp
          · rw [if_neg (fun hc => hre (hcond.1 hc))]
            have hCb : ¬(¬setOf st L = [] ∧ setOf (unregisterSocket st s) L = []) := by
              rintro ⟨-, hb⟩
              rw [hset1l] at hb
              exact hre hb
            rw [if_neg hCb]
            rfl
        · have hc0 : (if l ≠ "" ∧
              (mapGet (unregisterSocket st s).userSockets l).isNone
              then [PEvent.leave l] else []).count (PEvent.leave L) = 0 := by
            have hll : ¬l = L := fun h => hLl h.symm
            split
            · simp [List.count_singleton', hll]
            · rfl
          rw [hc0]
          have hsame : setOf (unregisterSocket st s) L = setOf st L := by
            unfold setOf
            rw [hget1 L, if_neg (fun h => hLl h.symm)]
          rw [hsame, trans_absurd_bwd]

theorem noop_counts (st : ServerState) (o : StepOut) (L : Login)
    (hpev : o.pevents = [])
    (hset : setOf o.state L = setOf st L) :
    (o.pevents.count (PEvent.join L) =
      if setOf st L = [] ∧ ¬setOf o.state L = [] then 1 else 0) ∧
    (o.pevents.count (PEvent.leave L) =
      if ¬setOf st L = [] ∧ setOf o.state L = [] then 1 else 0) := by
  rw [hpev, hset]
  exact ⟨by rw [trans_absurd_fwd]; rfl, by rw [trans_absurd_bwd]; rfl⟩

/-- C1: in every reachable server state and for every handled occurrence
(connect, successful or failed auth, register result, chat, disconnect), a
`join{L}` presence broadcast is invoked exactly once when L's connection set
transitions from empty to non-empty and never otherwise, and a `leave{L}`
broadcast exactly once when it transitions from non-empty to empty and never
otherwise — so neither event is ever emitted per individual connection while
the set stays non-empty (a new connection authenticating as an
already-present login emits nothing). -/
theorem c1_presence_per_transition (st : ServerState) (hR : Reachable st)
    (e : Ev) (L : Login) :
    ((stepFn st e).pevents.count (PEvent.join L) =
      if setOf st L = [] ∧ ¬setOf (stepFn st e).state L = [] then 1 else 0) ∧
    ((stepFn st e).pevents.count (PEvent.leave L) =
      if ¬setOf st L = [] ∧ setOf (stepFn st e).state L = [] then 1 else 0) := by
  have hInv := reachable_inv st hR
  cases e with
  | connect s =>
    by_cases hs : s ∈ st.live
    · exact noop_counts st _ L (by simp [stepFn, stepE, hs]) (by simp [stepFn, stepE, hs])
    · exact noop_counts st _ L (by simp [stepFn, stepE, hs])
        (by simp [stepFn, stepE, hs, setOf])
  | authOk s lg =>
    by_cases hs : s ∈ st.live
    · rw [stepFn_authOk st s lg hs]
      exact authorize_pevents_spec st s lg hInv hs L
    · exact noop_counts st _ L (by simp [stepFn, stepE, hs]) (by simp [stepFn, stepE, hs])
  | authFail s err =>
    by_cases hs : s ∈ st.live <;>
      exact noop_counts st _ L (by simp [stepFn, stepE, hs]) (by simp [stepFn, stepE, hs])
  | regOk s lg =>
    by_cases hs : s ∈ st.live <;>
      exact noop_counts st _ L (by simp [stepFn, stepE, hs]) (by simp [stepFn, stepE, hs])
  | regFail s err =>
    by_cases hs : s ∈ st.live <;>
      exact noop_counts st _ L (by simp [stepFn, stepE, hs]) (by simp [stepFn, stepE, hs])
  | chat s body =>
    exact noop_counts st _ L (stepFn_chat_pevents st s body)
      (by rw [stepFn_chat_state])
  | disconnect s =>
    by_cases hs : s ∈ st.live
    · exact disconnect_pevents_spec st s hInv hs L
    · exact noop_counts st _ L (by simp [stepFn, stepE, hs]) (by simp [stepFn, stepE, hs])

/-- Witness for C1: the first authentication of the only connection emits the
join broadcast exactly once (the transition hypothesis is discharged at a
concrete reachable state). -/
theorem c1_presence_per_transition_witness :
    Reachable (runSt [Ev.connect 0]) ∧
    (((stepFn (runSt [Ev.connect 0]) (Ev.authOk 0 "amy")).pevents.count
        (PEvent.join "amy") =
      if setOf (runSt [Ev.connect 0]) "amy" = [] ∧
          ¬setOf (stepFn (runSt [Ev.connect 0]) (Ev.authOk 0 "amy")).state "amy" = []
      then 1 else 0) ∧
    ((stepFn (runSt [Ev.connect 0]) (Ev.authOk 0 "amy")).pevents.count
        (PEvent.leave "amy") =
      if ¬setOf (runSt [Ev.connect 0]) "amy" = [] ∧
          setOf (stepFn (runSt [Ev.connect 0]) (Ev.authOk 0 "amy")).state "amy" = []
      then 1 else 0)) :=
  ⟨⟨[Ev.connect 0], rfl⟩,
   c1_presence_per_transition (runSt [Ev.connect 0]) ⟨[Ev.connect 0], rfl⟩
     (Ev.authOk 0 "amy") "amy"⟩

theorem mem_registrySockets (st : ServerState) (x : SocketId) :
    x ∈ registrySockets st ↔ ∃ p ∈ st.userSockets, x ∈ p.2 := by
  simp [registrySockets, List.mem_flatMap]

theorem mem_setOf_clientData (st : ServerState) (hInv : Inv st) (x : SocketId)
    (L : Login) (hL : L ≠ "") (hx : x ∈ setOf st L) : st.clientData x = some L := by
  obtain ⟨-, -, h3, -, -⟩ := hInv
  unfold setOf at hx
  cases hg : mapGet st.userSockets L with
  | none =>
    rw [hg] at hx
    simp at hx
  | some v =>
    rw [hg] at hx
    simp only [Option.getD_some] at hx
    rcases h3 (L, v) (mapGet_mem _ _ _ hg) x hx with hc | hc
    · exact absurd hc hL
    · exact hc

/-- C3 (amended): in every reachable registry state, a login key exists in the
user-sockets map iff its connection set is non-empty; and every connection
appears in the set of at most one login, provided neither login is the empty
string.  The restriction is forced by the source: `_unregisterSocket`'s guard
`if (!login) return` treats the empty-string login as unbound, so a connection
that successfully authenticated as `""` is never cleaned out of the `""` set
and can simultaneously appear under a second login. -/
theorem c3_registry_invariant (st : ServerState) (hR : Reachable st) :
    (∀ L, (mapGet st.userSockets L).isSome = true ↔ ¬setOf st L = []) ∧
    (∀ x L1 L2, L1 ≠ "" → L2 ≠ "" → x ∈ setOf st L1 → x ∈ setOf st L2 → L1 = L2) := by
  have hInv := reachable_inv st hR
  constructor
  · exact fun L => inv_present_iff st hInv.2.1 L
  · intro x L1 L2 h1 h2 hx1 hx2
    have ha := mem_setOf_clientData st hInv x L1 h1 hx1
    have hb := mem_setOf_clientData st hInv x L2 h2 hx2
    rw [ha] at hb
    exact Option.some_inj.1 hb

/-- Counterexample for C3 as stated: after socket 0 authenticates as the
empty-string login and then re-authenticates as "b" (both verdicts are
produced by the repository's `DummyAuthenticator`, which accepts any login),
the reachable state stores connection 0 under the two distinct logins `""`
and `"b"` at once. -/
theorem c3_counterexample :
    Reachable (runSt [Ev.connect 0, Ev.authOk 0 "", Ev.authOk 0 "b"]) ∧
    0 ∈ setOf (runSt [Ev.connect 0, Ev.authOk 0 "", Ev.authOk 0 "b"]) "" ∧
    0 ∈ setOf (runSt [Ev.connect 0, Ev.authOk 0 "", Ev.authOk 0 "b"]) "b" ∧
    ("" : Login) ≠ "b" :=
  ⟨⟨[Ev.connect 0, Ev.authOk 0 "", Ev.authOk 0 "b"], rfl⟩,
   by decide, by decide, by decide⟩

/-- Witness for C3: the amended invariant evaluated at a concrete reachable
two-login state. -/
theorem c3_registry_invariant_witness :
    Reachable (runSt [Ev.connect 0, Ev.connect 1, Ev.authOk 0 "amy", Ev.authOk 1 "bob"]) ∧
    ((∀ L, (mapGet (runSt [Ev.connect 0, Ev.connect 1, Ev.authOk 0 "amy",
        Ev.authOk 1 "bob"]).userSockets L).isSome = true ↔
      ¬setOf (runSt [Ev.connect 0, Ev.connect 1, Ev.authOk 0 "amy",
        Ev.authOk 1 "bob"]) L = []) ∧
    (∀ x L1 L2, L1 ≠ "" → L2 ≠ "" →
      x ∈ setOf (runSt [Ev.connect 0, Ev.connect 1, Ev.authOk 0 "amy",
        Ev.authOk 1 "bob"]) L1 →
      x ∈ setOf (runSt [Ev.connect 0, Ev.connect 1, Ev.authOk 0 "amy",
        Ev.authOk 1 "bob"]) L2 → L1 = L2)) :=
  ⟨⟨[Ev.connect 0, Ev.connect 1, Ev.authOk 0 "amy", Ev.authOk 1 "bob"], rfl⟩,
   c3_registry_invariant _
     ⟨[Ev.connect 0, Ev.connect 1, Ev.authOk 0 "amy", Ev.authOk 1 "bob"], rfl⟩⟩

/-- C9 (amended): `_unregisterSocket` is exactly a no-op when the connection's
`CLIENT_DATA.login` is falsy — `null` or the empty string — and otherwise, for
a bound login L (non-empty string), it removes the connection from L's set and
changes nothing else: `CLIENT_DATA` and the live list are untouched (so the
previous login stays readable on the connection), every other login's map
entry is unchanged, L's set becomes exactly the old set minus the connection,
and whether L's set became empty is observable as the disappearance of L's
key. -/
theorem c9_unregister_frame (st : ServerState) (s : SocketId) (hR : Reachable st) :
    (truthy (st.clientData s) = false → unregisterSocket st s = st) ∧
    (∀ L, st.clientData s = some L → L ≠ "" →
      ((unregisterSocket st s).clientData = st.clientData ∧
       (unregisterSocket st s).live = st.live ∧
       (∀ k, k ≠ L →
         mapGet (unregisterSocket st s).userSockets k = mapGet st.userSockets k) ∧
       setOf (unregisterSocket st s) L = setDelete (setOf st L) s ∧
       ((mapGet (unregisterSocket st s).userSockets L).isNone = true ↔
         setDelete (setOf st L) s = []))) := by
  have h1 := (reachable_inv st hR).1
  constructor
  · exact unregisterSocket_untruthy st s
  · intro L hcd hL
    refine ⟨unregisterSocket_clientData st s, unregisterSocket_live st s, ?_, ?_, ?_⟩
    · intro k hk
      rw [unregisterSocket_get st s k h1, hcd]
      dsimp only
      rw [if_neg hL, if_neg (fun h => hk h.symm)]
    · unfold setOf
      rw [unregisterSocket_get st s L h1, hcd]
      dsimp only
      rw [if_neg hL, if_pos rfl]
      split
      · simp
      · rename_i hlen
        have hnil : setDelete ((mapGet st.userSockets L).getD []) s = [] := by
          cases hd : setDelete ((mapGet st.userSockets L).getD []) s with
          | nil => rfl
          | cons a tl =>
            rw [hd] at hlen
            simp at hlen
        rw [hnil]
        rfl
    · rw [unregisterSocket_get st s L h1, hcd]
      dsimp only
      rw [if_neg hL, if_pos rfl]
      unfold setOf
      split
      · rename_i hlen
        constructor
        · intro h
          simp at h
        · intro h
          rw [h] at hlen
          simp at hlen
      · rename_i hlen
        constructor
        · intro _
          cases hd : setDelete ((mapGet st.userSockets L).getD []) s with
          | nil => rfl
          | cons a tl =>
            rw [hd] at hlen
            simp at hlen
        · intro _
          rfl

/-- Counterexample for C9 as stated: a connection that successfully
authenticated as the empty-string login is bound to it and stored in its set,
yet `_unregisterSocket` leaves the whole state — including that set —
untouched, because the guard `if (!login) return` treats `""` as unbound. -/
theorem c9_counterexample :
    Reachable (runSt [Ev.connect 0, Ev.authOk 0 ""]) ∧
    (runSt [Ev.connect 0, Ev.authOk 0 ""]).clientData 0 = some "" ∧
    0 ∈ setOf (runSt [Ev.connect 0, Ev.authOk 0 ""]) "" ∧
    unregisterSocket (runSt [Ev.connect 0, Ev.authOk 0 ""]) 0 =
      runSt [Ev.connect 0, Ev.authOk 0 ""] ∧
    0 ∈ setOf (unregisterSocket (runSt [Ev.connect 0, Ev.authOk 0 ""]) 0) "" :=
  ⟨⟨[Ev.connect 0, Ev.authOk 0 ""], rfl⟩, by decide, by decide, rfl, by decide⟩

/-- Witness for C9: the frame property evaluated on a concrete reachable
state where socket 0 is bound to "amy" together with socket 1. -/
theorem c9_unregister_frame_witness :
    (runSt [Ev.connect 0, Ev.connect 1, Ev.authOk 0 "amy",
        Ev.authOk 1 "amy"]).clientData 0 = some "amy" ∧
    ("amy" : Login) ≠ "" ∧
    setOf (unregisterSocket (runSt [Ev.connect 0, Ev.connect 1, Ev.authOk 0 "amy",
        Ev.authOk 1 "amy"]) 0) "amy" =
      setDelete (setOf (runSt [Ev.connect 0, Ev.connect 1, Ev.authOk 0 "amy",
        Ev.authOk 1 "amy"]) "amy") 0 :=
  ⟨by decide, by decide,
   ((c9_unregister_frame _ 0
       ⟨[Ev.connect 0, Ev.connect 1, Ev.authOk 0 "amy", Ev.authOk 1 "amy"], rfl⟩).2
     "amy" (by decide) (by decide)).2.2.2.1⟩

/-- C10: a successful re-authentication as the same login L on a connection
already bound to L (and hence stored in L's set) invokes no join and no leave
broadcast, delivers no notification at all, and leaves the registry mapping
unchanged: every socket's bound login, the presence of every login key, and
the membership of every login's set are as before.  (Only the JS `Map`/`Set`
insertion order may be refreshed, which the mapping does not observe.) -/
theorem c10_reauth_same_login (st : ServerState) (s : SocketId) (L : Login)
    (hR : Reachable st) (hcd : st.clientData s = some L) (ss : List SocketId)
    (hget : mapGet st.userSockets L = some ss) (hmem : s ∈ ss) :
    (authorizeSocket st L s).pevents = [] ∧
    (authorizeSocket st L s).deliveries = [] ∧
    (∀ x, (authorizeSocket st L s).state.clientData x = st.clientData x) ∧
    (∀ k, (mapGet (authorizeSocket st L s).state.userSockets k).isSome =
      (mapGet st.userSockets k).isSome) ∧
    (∀ k x, x ∈ setOf (authorizeSocket st L s).state k ↔ x ∈ setOf st k) := by
  have h1 := (reachable_inv st hR).1
  have hmap := authorizeSocket_map st L s
  have hhad : (mapGet st.userSockets L).isSome = true := by
    rw [hget]
    rfl
  have hCe : ¬(L ≠ "" ∧ L ≠ L ∧
      (mapGet (authorizeSocket st L s).state.userSockets L).isNone = true) := by
    rintro ⟨-, a, -⟩
    exact a rfl
  have hpev : (authorizeSocket st L s).pevents = [] := by
    rw [authorizeSocket_pevents, hcd]
    dsimp only
    rw [if_neg hCe, if_pos hhad]
    rfl
  have hdel : (authorizeSocket st L s).deliveries = [] := by
    rw [authorizeSocket_deliveries, hcd]
    dsimp only
    rw [if_neg hCe, if_pos hhad]
    rfl
  have hcd3 := authorizeSocket_clientData st L s
  have hmain : ∀ k,
      mapGet (authorizeSocket st L s).state.userSockets k = mapGet st.userSockets k ∨
      (k = L ∧ ∃ w, mapGet (authorizeSocket st L s).state.userSockets k = some w ∧
        ∀ x, x ∈ w ↔ x ∈ ss) := by
    intro k
    by_cases hL : L = ""
    · left
      rw [hmap, unregisterSocket_untruthy st s (by rw [hcd, hL]; rfl), mapGet_mapSet]
      by_cases hLk : L = k
      · rw [if_pos hLk, ← hLk, hget]
        simp only [Option.getD_some]
        rw [show setAdd ss s = ss from by unfold setAdd; rw [if_pos hmem]]
      · rw [if_neg hLk]
    · have hget1 : ∀ k2, mapGet (unregisterSocket st s).userSockets k2 =
          if L = k2 then
            (if (setDelete ss s).length > 0 then some (setDelete ss s) else none)
          else mapGet st.userSockets k2 := by
        intro k2
        rw [unregisterSocket_get st s k2 h1, hcd]
        dsimp only
        rw [if_neg hL]
        by_cases hLk : L = k2
        · rw [if_pos hLk, if_pos hLk, ← hLk, hget]
          simp only [Option.getD_some]
        · rw [if_neg hLk, if_neg hLk]
      by_cases hLk : L = k
      · right
        refine ⟨hLk.symm, ?_⟩
        rw [hmap, mapGet_mapSet, if_pos hLk]
        refine ⟨_, rfl, ?_⟩
        intro x
        rw [hget1 L, if_pos rfl]
        by_cases hre : setDelete ss s = []
        · rw [if_neg (show ¬(setDelete ss s).length > 0 from by rw [hre]; simp)]
          simp only [Option.getD_none]
          constructor
          · intro hx
            rcases (mem_setAdd _ _ _).1 hx with hx | hx
            · simp at hx
            · rw [hx]
              exact hmem
          · intro hx
            refine (mem_setAdd _ _ _).2 (Or.inr ?_)
            by_contra hxs
            have hmem2 : x ∈ setDelete ss s := (mem_setDelete _ _ _).2 ⟨hx, hxs⟩
            rw [hre] at hmem2
            simp at hmem2
        · rw [if_pos (by simpa using List.length_pos.2 hre)]
          simp only [Option.getD_some]
          constructor
          · intro hx
            rcases (mem_setAdd _ _ _).1 hx with hx | hx
            · exact ((mem_setDelete _ _ _).1 hx).1
            · rw [hx]
              exact hmem
          · intro hx
            by_cases hxs : x = s
            · exact (mem_setAdd _ _ _).2 (Or.inr hxs)
            · exact (mem_setAdd _ _ _).2 (Or.inl ((mem_setDelete _ _ _).2 ⟨hx, hxs⟩))
      · left
        rw [hmap, mapGet_mapSet, if_neg hLk, hget1 k, if_neg hLk]
  refine ⟨hpev, hdel, ?_, ?_, ?_⟩
  · intro x
    rw [hcd3]
    show (if x = s then some L else st.clientData x) = st.clientData x
    by_cases hxs : x = s
    · rw [if_pos hxs, hxs, hcd]
    · rw [if_neg hxs]
  · intro k
    rcases hmain k with h | ⟨hkL, w, hw, -⟩
    · rw [h]
    · rw [hw, hkL, hget]
      rfl
  · intro k x
    unfold setOf
    rcases hmain k with h | ⟨hkL, w, hw, hmemw⟩
    · rw [h]
    · rw [hw, hkL, hget]
      simp only [Option.getD_some]
      exact hmemw x

/-- Witness for C10: concrete state with sockets 0 and 1 both bound to "amy";
socket 0 re-authenticates as "amy" and nothing is emitted. -/
theorem c10_reauth_same_login_witness :
    (runSt [Ev.connect 0, Ev.connect 1, Ev.authOk 0 "amy",
        Ev.authOk 1 "amy"]).clientData 0 = some "amy" ∧
    (authorizeSocket (runSt [Ev.connect 0, Ev.connect 1, Ev.authOk 0 "amy",
        Ev.authOk 1 "amy"]) "amy" 0).pevents = [] ∧
    (authorizeSocket (runSt [Ev.connect 0, Ev.connect 1, Ev.authOk 0 "amy",
        Ev.authOk 1 "amy"]) "amy" 0).deliveries = [] :=
  ⟨by decide,
   (c10_reauth_same_login _ 0 "amy"
     ⟨[Ev.connect 0, Ev.connect 1, Ev.authOk 0 "amy", Ev.authOk 1 "amy"], rfl⟩
     (by decide) [0, 1] (by decide) (by decide)).1,
   (c10_reauth_same_login _ 0 "amy"
     ⟨[Ev.connect 0, Ev.connect 1, Ev.authOk 0 "amy", Ev.authOk 1 "amy"], rfl⟩
     (by decide) [0, 1] (by decide) (by decide)).2.1⟩

theorem mem_notifyUserLeave (st : ServerState) (lg : Login) (x : SocketId) (o : Out) :
    (x, o) ∈ notifyUserLeave st lg ↔
      o = Out.leave lg ∧ (∃ p ∈ st.userSockets, x ∈ p.2) ∧
        ¬st.clientData x = some lg := by
  unfold notifyUserLeave
  rw [mem_broadcastMessage]
  simp

theorem mem_notifyUserJoin (st : ServerState) (lg : Login) (x : SocketId) (o : Out) :
    (x, o) ∈ notifyUserJoin st lg ↔
      o = Out.join lg ∧ (∃ p ∈ st.userSockets, x ∈ p.2) ∧
        ¬st.clientData x = some lg := by
  unfold notifyUserJoin
  rw [mem_broadcastMessage]
  simp

/-- C2 (amended): when a connection bound to A (with no other A-connections)
successfully re-authenticates as B ≠ A and B's set was previously empty, the
handler invokes the `leave{A}` broadcast followed by the `join{B}` broadcast,
in that order.  `leave{A}` is delivered to every socket stored in the registry
whose (post-switch) bound login differs from A — since A's set is now empty
this is every registered socket, *including the re-authenticating connection
itself*, now bound to B.  `join{B}` is delivered to every registered socket
not bound to B, hence not to the connection (nor to other B-connections),
and the connection never receives `join{B}`. -/
theorem c2_identity_switch (st : ServerState) (s : SocketId) (A B : Login)
    (hR : Reachable st) (hs : s ∈ st.live) (hcd : st.clientData s = some A)
    (hA : A ≠ "") (hAB : A ≠ B)
    (hsetA : mapGet st.userSockets A = some [s])
    (hB : mapGet st.userSockets B = none) :
    (stepFn st (Ev.authOk s B)).pevents = [PEvent.leave A, PEvent.join B] ∧
    (s, Out.leave A) ∈ (stepFn st (Ev.authOk s B)).deliveries ∧
    (∀ x, (x, Out.leave A) ∈ (stepFn st (Ev.authOk s B)).deliveries ↔
      ((∃ p ∈ (stepFn st (Ev.authOk s B)).state.userSockets, x ∈ p.2) ∧
        ¬(stepFn st (Ev.authOk s B)).state.clientData x = some A)) ∧
    (∀ x, (x, Out.join B) ∈ (stepFn st (Ev.authOk s B)).deliveries ↔
      ((∃ p ∈ (stepFn st (Ev.authOk s B)).state.userSockets, x ∈ p.2) ∧
        ¬(stepFn st (Ev.authOk s B)).state.clientData x = some B)) ∧
    (s, Out.join B) ∉ (stepFn st (Ev.authOk s B)).deliveries := by
  have h1 := (reachable_inv st hR).1
  have hstep := stepFn_authOk st s B hs
  have hmap := authorizeSocket_map st B s
  have hcd3 := authorizeSocket_clientData st B s
  have hgetA3 : mapGet (authorizeSocket st B s).state.userSockets A = none := by
    rw [hmap, mapGet_mapSet, if_neg (fun h => hAB h.symm)]
    rw [unregisterSocket_get st s A h1, hcd]
    dsimp only
    rw [if_neg hA, if_pos rfl, hsetA]
    simp [setDelete]
  have hcond : A ≠ "" ∧ A ≠ B ∧
      (mapGet (authorizeSocket st B s).state.userSockets A).isNone = true :=
    ⟨hA, hAB, by rw [hgetA3]; rfl⟩
  have hhadB : ¬(mapGet st.userSockets B).isSome = true := by
    rw [hB]
    simp
  have hdel : (authorizeSocket st B s).deliveries =
      notifyUserLeave (authorizeSocket st B s).state A ++
      notifyUserJoin (authorizeSocket st B s).state B := by
    rw [authorizeSocket_deliveries, hcd]
    dsimp only
    rw [if_pos hcond, if_neg hhadB]
  have hpev : (authorizeSocket st B s).pevents = [PEvent.leave A, PEvent.join B] := by
    rw [authorizeSocket_pevents, hcd]
    dsimp only
    rw [if_pos hcond, if_neg hhadB]
    rfl
  have hcd3s : (authorizeSocket st B s).state.clientData s = some B := by
    rw [hcd3]
    simp
  have hsreg : ∃ p ∈ (authorizeSocket st B s).state.userSockets, s ∈ p.2 := by
    refine ⟨(B, setAdd ((mapGet (unregisterSocket st s).userSockets B).getD []) s),
      ?_, ?_⟩
    · apply mapGet_mem
      rw [hmap, mapGet_mapSet, if_pos rfl]
    · exact (mem_setAdd _ _ _).2 (Or.inr rfl)
  have hdstep : (stepFn st (Ev.authOk s B)).deliveries =
      (s, Out.authReply true (some B) none) :: (authorizeSocket st B s).deliveries := by
    rw [hstep]
  have hsstep : (stepFn st (Ev.authOk s B)).state = (authorizeSocket st B s).state := by
    rw [hstep]
  have hmemleave : ∀ x, (x, Out.leave A) ∈ (stepFn st (Ev.authOk s B)).deliveries ↔
      ((∃ p ∈ (authorizeSocket st B s).state.userSockets, x ∈ p.2) ∧
        ¬(authorizeSocket st B s).state.clientData x = some A) := by
    intro x
    rw [hdstep, hdel]
    constructor
    · intro hx
      rcases List.mem_cons.1 hx with hx | hx
      · exfalso
        simp at hx
      · rcases List.mem_append.1 hx with hx | hx
        · exact ((mem_notifyUserLeave _ _ _ _).1 hx).2
        · have := ((mem_notifyUserJoin _ _ _ _).1 hx).1
          exact absurd this (by simp)
    · intro hx
      refine List.mem_cons_of_mem _ (List.mem_append_left _ ?_)
      exact (mem_notifyUserLeave _ _ _ _).2 ⟨rfl, hx.1, hx.2⟩
  have hmemjoin : ∀ x, (x, Out.join B) ∈ (stepFn st (Ev.authOk s B)).deliveries ↔
      ((∃ p ∈ (authorizeSocket st B s).state.userSockets, x ∈ p.2) ∧
        ¬(authorizeSocket st B s).state.clientData x = some B) := by
    intro x
    rw [hdstep, hdel]
    constructor
    · intro hx
      rcases List.mem_cons.1 hx with hx | hx
      · exfalso
        simp at hx
      · rcases List.mem_append.1 hx with hx | hx
        · have := ((mem_notifyUserLeave _ _ _ _).1 hx).1
          exact absurd this (by simp)
        · exact ((mem_notifyUserJoin _ _ _ _).1 hx).2
    · intro hx
      refine List.mem_cons_of_mem _ (List.mem_append_right _ ?_)
      exact (mem_notifyUserJoin _ _ _ _).2 ⟨rfl, hx.1, hx.2⟩
  refine ⟨?_, ?_, ?_, ?_, ?_⟩
  · rw [hstep]
    exact hpev
  · exact (hmemleave s).2 ⟨hsreg, by rw [hcd3s]; exact fun h => hAB (Option.some_inj.1 h).symm⟩
  · intro x
    rw [hsstep]
    exact hmemleave x
  · intro x
    rw [hsstep]
    exact hmemjoin x
  · intro hx
    exact ((hmemjoin s).1 hx).2 hcd3s

/-- Counterexample for C2 as stated: sockets 0 (bound "a") and 1 (bound "c");
socket 0 re-authenticates as "b", emptying "a".  The claim says `leave{a}` is
emitted to all sockets *except* socket 0, but socket 0 receives it: its login
was already rewritten to "b" before the broadcast, so the
`login !== previousLogin` filter no longer excludes it. -/
theorem c2_counterexample :
    Reachable (runSt [Ev.connect 0, Ev.connect 1, Ev.authOk 1 "c", Ev.authOk 0 "a"]) ∧
    (runSt [Ev.connect 0, Ev.connect 1, Ev.authOk 1 "c",
      Ev.authOk 0 "a"]).clientData 0 = some "a" ∧
    setOf (runSt [Ev.connect 0, Ev.connect 1, Ev.authOk 1 "c",
      Ev.authOk 0 "a"]) "a" = [0] ∧
    mapGet (runSt [Ev.connect 0, Ev.connect 1, Ev.authOk 1 "c",
      Ev.authOk 0 "a"]).userSockets "b" = none ∧
    (0, Out.leave "a") ∈ (stepFn (runSt [Ev.connect 0, Ev.connect 1, Ev.authOk 1 "c",
      Ev.authOk 0 "a"]) (Ev.authOk 0 "b")).deliveries :=
  ⟨⟨[Ev.connect 0, Ev.connect 1, Ev.authOk 1 "c", Ev.authOk 0 "a"], rfl⟩,
   by decide, by decide, by decide, by decide⟩

/-- Witness for C2: the amended behaviour at the same concrete state —
`leave{a}` then `join{b}` is invoked, and the switching connection itself
receives `leave{a}` but never `join{b}`. -/
theorem c2_identity_switch_witness :
    (stepFn (runSt [Ev.connect 0, Ev.connect 1, Ev.authOk 1 "c", Ev.authOk 0 "a"])
      (Ev.authOk 0 "b")).pevents = [PEvent.leave "a", PEvent.join "b"] ∧
    (0, Out.leave "a") ∈ (stepFn (runSt [Ev.connect 0, Ev.connect 1, Ev.authOk 1 "c",
      Ev.authOk 0 "a"]) (Ev.authOk 0 "b")).deliveries ∧
    (0, Out.join "b") ∉ (stepFn (runSt [Ev.connect 0, Ev.connect 1, Ev.authOk 1 "c",
      Ev.authOk 0 "a"]) (Ev.authOk 0 "b")).deliveries := by
  have h := c2_identity_switch
    (runSt [Ev.connect 0, Ev.connect 1, Ev.authOk 1 "c", Ev.authOk 0 "a"]) 0 "a" "b"
    ⟨[Ev.connect 0, Ev.connect 1, Ev.authOk 1 "c", Ev.authOk 0 "a"], rfl⟩
    (by decide) (by decide) (by decide) (by decide) (by decide) (by decide)
  exact ⟨h.1, h.2.1, h.2.2.2.2⟩

theorem stepFn_chat_bound (st : ServerState) (s : SocketId) (l : Login)
    (body : Option String) (hs : s ∈ st.live) (hcd : st.clientData s = some l)
    (hl : l ≠ "") :
    stepFn st (Ev.chat s body) =
      ⟨st, [], broadcastMessage st (Out.chatMsg l body)
        (fun r => !(r = s : Bool)) none⟩ := by
  unfold stepFn stepE
  dsimp only
  rw [if_pos hs]
  have ht : ¬truthy (st.clientData s) = false := by
    rw [hcd]
    simp [truthy, hl]
  rw [if_neg ht, hcd]

/-- C5 (amended): a chat event from a connection bound to login l (non-empty
string) is broadcast as `{from: l, body}` to exactly the connections stored
in the `_userSockets` registry other than the sender — including other
connections bound to the same login — and is never delivered back to the
sender; live connections with no bound login are not in the registry and
receive nothing.  The registry itself is unchanged. -/
theorem c5_chat_delivery (st : ServerState) (s : SocketId) (l : Login)
    (body : Option String) (hs : s ∈ st.live) (hcd : st.clientData s = some l)
    (hl : l ≠ "") :
    (∀ x o, (x, o) ∈ (stepFn st (Ev.chat s body)).deliveries →
      o = Out.chatMsg l body) ∧
    (∀ x, ((x, Out.chatMsg l body) ∈ (stepFn st (Ev.chat s body)).deliveries ↔
      ((∃ p ∈ st.userSockets, x ∈ p.2) ∧ x ≠ s))) ∧
    (∀ o, (s, o) ∉ (stepFn st (Ev.chat s body)).deliveries) ∧
    (stepFn st (Ev.chat s body)).state = st := by
  have hstep := stepFn_chat_bound st s l body hs hcd hl
  rw [hstep]
  refine ⟨?_, ?_, ?_, rfl⟩
  · intro x o hx
    replace hx : (x, o) ∈ broadcastMessage st (Out.chatMsg l body)
        (fun r => !(r = s : Bool)) none := hx
    exact ((mem_broadcastMessage _ _ _ _ _).1 hx).1
  · intro x
    show (x, Out.chatMsg l body) ∈ broadcastMessage st (Out.chatMsg l body)
        (fun r => !(r = s : Bool)) none ↔ _
    rw [mem_broadcastMessage]
    simp
  · intro o hx
    replace hx : (s, o) ∈ broadcastMessage st (Out.chatMsg l body)
        (fun r => !(r = s : Bool)) none := hx
    rcases (mem_broadcastMessage _ _ _ _ _).1 hx with ⟨-, -, hf⟩
    simp at hf

/-- Counterexample for C5 as stated: socket 1 is a live connection with no
bound login; socket 0 (bound "amy") sends a chat.  The claim promises
delivery to every other live connection, but the broadcast iterates only the
`_userSockets` registry, so nothing at all is delivered. -/
theorem c5_counterexample :
    Reachable (runSt [Ev.connect 0, Ev.connect 1, Ev.authOk 0 "amy"]) ∧
    1 ∈ (runSt [Ev.connect 0, Ev.connect 1, Ev.authOk 0 "amy"]).live ∧
    (runSt [Ev.connect 0, Ev.connect 1, Ev.authOk 0 "amy"]).clientData 1 = none ∧
    (runSt [Ev.connect 0, Ev.connect 1,
      Ev.authOk 0 "amy"]).clientData 0 = some "amy" ∧
    (1 : SocketId) ≠ 0 ∧
    (1, Out.chatMsg "amy" (some "hi")) ∉
      (stepFn (runSt [Ev.connect 0, Ev.connect 1, Ev.authOk 0 "amy"])
        (Ev.chat 0 (some "hi"))).deliveries :=
  ⟨⟨[Ev.connect 0, Ev.connect 1, Ev.authOk 0 "amy"], rfl⟩,
   by decide, by decide, by decide, by decide, by decide⟩

/-- Witness for C5: with amy on sockets 0 and 2 and bob on socket 1, a chat
from socket 0 reaches sockets 1 and 2 (including the same-login socket 2)
and never socket 0. -/
theorem c5_chat_delivery_witness :
    ((2, Out.chatMsg "amy" (some "hi")) ∈
      (stepFn (runSt [Ev.connect 0, Ev.connect 1, Ev.connect 2, Ev.authOk 0 "amy",
        Ev.authOk 1 "bob", Ev.authOk 2 "amy"]) (Ev.chat 0 (some "hi"))).deliveries ↔
      ((∃ p ∈ (runSt [Ev.connect 0, Ev.connect 1, Ev.connect 2, Ev.authOk 0 "amy",
        Ev.authOk 1 "bob", Ev.authOk 2 "amy"]).userSockets, 2 ∈ p.2) ∧
        (2 : SocketId) ≠ 0)) ∧
    (∀ o, (0, o) ∉
      (stepFn (runSt [Ev.connect 0, Ev.connect 1, Ev.connect 2, Ev.authOk 0 "amy",
        Ev.authOk 1 "bob", Ev.authOk 2 "amy"]) (Ev.chat 0 (some "hi"))).deliveries) := by
  have h := c5_chat_delivery
    (runSt [Ev.connect 0, Ev.connect 1, Ev.connect 2, Ev.authOk 0 "amy",
      Ev.authOk 1 "bob", Ev.authOk 2 "amy"]) 0 "amy" (some "hi")
    (by decide) (by decide) (by decide)
  exact ⟨h.2.1 2, h.2.2.1⟩

/-- C6: a chat event from a connection whose bound login is falsy (`null`, or
the empty string which the guard treats the same way) is dropped: no event is
delivered to anyone, no broadcast is invoked, no reply goes back to the
sender, and the server state is completely unchanged.  This covers any
`body`, including a missing one. -/
theorem c6_unauthenticated_chat (st : ServerState) (s : SocketId)
    (body : Option String) (h : truthy (st.clientData s) = false) :
    (stepFn st (Ev.chat s body)).state = st ∧
    (stepFn st (Ev.chat s body)).deliveries = [] ∧
    (stepFn st (Ev.chat s body)).pevents = [] := by
  refine ⟨stepFn_chat_state st s body, ?_, stepFn_chat_pevents st s body⟩
  unfold stepFn stepE
  dsimp only
  by_cases hs : s ∈ st.live
  · rw [if_pos hs, if_pos h]
    cases body <;> rfl
  · rw [if_neg hs]

/-- Witness for C6: socket 0 is live and unauthenticated; its chat is fully
dropped. -/
theorem c6_unauthenticated_chat_witness :
    truthy ((runSt [Ev.connect 0, Ev.connect 1,
      Ev.authOk 1 "bob"]).clientData 0) = false ∧
    (stepFn (runSt [Ev.connect 0, Ev.connect 1, Ev.authOk 1 "bob"])
      (Ev.chat 0 (some "hello"))).deliveries = [] ∧
    (stepFn (runSt [Ev.connect 0, Ev.connect 1, Ev.authOk 1 "bob"])
      (Ev.chat 0 (some "hello"))).state =
      runSt [Ev.connect 0, Ev.connect 1, Ev.authOk 1 "bob"] := by
  have h := c6_unauthenticated_chat
    (runSt [Ev.connect 0, Ev.connect 1, Ev.authOk 1 "bob"]) 0 (some "hello")
    (by decide)
  exact ⟨by decide, h.2.1, h.1⟩

theorem authorize_no_reply (st : ServerState) (lg : Login) (s : SocketId)
    (x : SocketId) (o : Out)
    (hx : (x, o) ∈ (authorizeSocket st lg s).deliveries) : isReply o = false := by
  rw [authorizeSocket_deliveries] at hx
  rcases List.mem_append.1 hx with hx | hx
  · cases hcds : st.clientData s with
    | none =>
      rw [hcds] at hx
      simp at hx
    | some p =>
      rw [hcds] at hx
      dsimp only at hx
      split at hx
      · rw [((mem_notifyUserLeave _ _ _ _).1 hx).1]
        rfl
      · simp at hx
  · split at hx
    · simp at hx
    · rw [((mem_notifyUserJoin _ _ _ _).1 hx).1]
      rfl

/-- C7: every auth or register result — `{success: true, login}` on success,
`{success: false, error: {name, code, message}}` on failure — is delivered
only to the connection that sent the triggering event, with exactly that
payload shape, and is never part of any broadcast to other connections; and
on a live connection the reply is actually delivered to the originator. -/
theorem c7_reply_only_to_originator (st : ServerState) (s : SocketId) :
    (∀ lg x o, (x, o) ∈ (stepFn st (Ev.authOk s lg)).deliveries → isReply o = true →
      x = s ∧ o = Out.authReply true (some lg) none) ∧
    (∀ err x o, (x, o) ∈ (stepFn st (Ev.authFail s err)).deliveries →
      isReply o = true → x = s ∧ o = Out.authReply false none (some err)) ∧
    (∀ lg x o, (x, o) ∈ (stepFn st (Ev.regOk s lg)).deliveries → isReply o = true →
      x = s ∧ o = Out.regReply true (some lg) none) ∧
    (∀ err x o, (x, o) ∈ (stepFn st (Ev.regFail s err)).deliveries →
      isReply o = true → x = s ∧ o = Out.regReply false none (some err)) ∧
    (∀ lg, s ∈ st.live →
      (s, Out.authReply true (some lg) none) ∈ (stepFn st (Ev.authOk s lg)).deliveries) := by
  refine ⟨?_, ?_, ?_, ?_, ?_⟩
  · intro lg x o hx hrep
    by_cases hs : s ∈ st.live
    · rw [stepFn_authOk st s lg hs] at hx
      replace hx : (x, o) ∈ (s, Out.authReply true (some lg) none) ::
          (authorizeSocket st lg s).deliveries := hx
      rcases List.mem_cons.1 hx with hx | hx
      · cases hx
        exact ⟨rfl, rfl⟩
      · rw [authorize_no_reply st lg s x o hx] at hrep
        cases hrep
    · simp [stepFn, stepE, hs] at hx
  · intro err x o hx hrep
    by_cases hs : s ∈ st.live
    · simp only [stepFn, stepE, if_pos hs] at hx
      rcases List.mem_singleton.1 hx with hx2
      cases hx2
      exact ⟨rfl, rfl⟩
    · simp [stepFn, stepE, hs] at hx
  · intro lg x o hx hrep
    by_cases hs : s ∈ st.live
    · simp only [stepFn, stepE, if_pos hs] at hx
      rcases List.mem_singleton.1 hx with hx2
      cases hx2
      exact ⟨rfl, rfl⟩
    · simp [stepFn, stepE, hs] at hx
  · intro err x o hx hrep
    by_cases hs : s ∈ st.live
    · simp only [stepFn, stepE, if_pos hs] at hx
      rcases List.mem_singleton.1 hx with hx2
      cases hx2
      exact ⟨rfl, rfl⟩
    · simp [stepFn, stepE, hs] at hx
  · intro lg hs
    rw [stepFn_authOk st s lg hs]
    exact List.mem_cons_self _ _

/-- Witness for C7: on a concrete state the auth reply goes to the
originating socket 0, and every reply-typed delivery of that step targets
socket 0. -/
theorem c7_reply_only_to_originator_witness :
    (0, Out.authReply true (some "amy") none) ∈
      (stepFn (runSt [Ev.connect 0, Ev.connect 1])
        (Ev.authOk 0 "amy")).deliveries ∧
    ((0, Out.authReply true (some "amy") none) ∈
        (stepFn (runSt [Ev.connect 0, Ev.connect 1]) (Ev.authOk 0 "amy")).deliveries →
      isReply (Out.authReply true (some "amy") none) = true →
      (0 : SocketId) = 0 ∧ Out.authReply true (some "amy") none =
        Out.authReply true (some "amy") none) := by
  have h := c7_reply_only_to_originator (runSt [Ev.connect 0, Ev.connect 1]) 0
  exact ⟨h.2.2.2.2 "amy" (by decide), h.1 "amy" 0 (Out.authReply true (some "amy") none)⟩

/-- C8 (amended): a handler run completes without an exception escaping it if
and only if the event is not a chat with a missing `body` from a live,
unauthenticated connection.  In that one case the chat handler's
`logger.warn({ event: 'message.unauthenticated', size: body.length })` throws
a TypeError past the handler; in every other case — auth, register,
disconnect, connect, chat with a string body, chat from a bound connection —
every failure is converted to a typed reply or a log line and nothing
escapes. -/
theorem stepOk_iff_ok (st : ServerState) (e : Ev) :
    stepOk st e = true ↔ ∃ out, stepE st e = Except.ok out := by
  unfold stepOk
  cases h : stepE st e <;> simp

theorem c8_no_throw_iff (st : ServerState) (e : Ev) :
    stepOk st e = true ↔
      ¬(∃ s, e = Ev.chat s none ∧ s ∈ st.live ∧
        truthy (st.clientData s) = false) := by
  cases e with
  | connect s =>
    constructor
    · intro _
      rintro ⟨s2, heq, -⟩
      exact Ev.noConfusion heq
    · intro _
      rw [stepOk_iff_ok]
      unfold stepE
      dsimp only
      split <;> exact ⟨_, rfl⟩
  | authOk s lg =>
    constructor
    · intro _
      rintro ⟨s2, heq, -⟩
      exact Ev.noConfusion heq
    · intro _
      rw [stepOk_iff_ok]
      unfold stepE
      dsimp only
      split <;> exact ⟨_, rfl⟩
  | authFail s err =>
    constructor
    · intro _
      rintro ⟨s2, heq, -⟩
      exact Ev.noConfusion heq
    · intro _
      rw [stepOk_iff_ok]
      unfold stepE
      dsimp only
      split <;> exact ⟨_, rfl⟩
  | regOk s lg =>
    constructor
    · intro _
      rintro ⟨s2, heq, -⟩
      exact Ev.noConfusion heq
    · intro _
      rw [stepOk_iff_ok]
      unfold stepE
      dsimp only
      split <;> exact ⟨_, rfl⟩
  | regFail s err =>
    constructor
    · intro _
      rintro ⟨s2, heq, -⟩
      exact Ev.noConfusion heq
    · intro _
      rw [stepOk_iff_ok]
      unfold stepE
      dsimp only
      split <;> exact ⟨_, rfl⟩
  | disconnect s =>
    constructor
    · intro _
      rintro ⟨s2, heq, -⟩
      exact Ev.noConfusion heq
    · intro _
      rw [stepOk_iff_ok]
      unfold stepE
      dsimp only
      by_cases hlive : s ∈ st.live
      · rw [if_pos hlive]
        cases st.clientData s with
        | none => exact ⟨_, rfl⟩
        | some l =>
          dsimp only
          split <;> exact ⟨_, rfl⟩
      · rw [if_neg hlive]
        exact ⟨_, rfl⟩
  | chat s body =>
    cases body with
    | some b =>
      constructor
      · intro _
        rintro ⟨s2, heq, -⟩
        injection heq with h1 h2
        exact Option.noConfusion h2
      · intro _
        rw [stepOk_iff_ok]
        unfold stepE
        dsimp only
        by_cases hlive : s ∈ st.live
        · rw [if_pos hlive]
          by_cases htr : truthy (st.clientData s) = false
          · rw [if_pos htr]
            exact ⟨_, rfl⟩
          · rw [if_neg htr]
            cases st.clientData s <;> exact ⟨_, rfl⟩
        · rw [if_neg hlive]
          exact ⟨_, rfl⟩
    | none =>
      constructor
      · intro hok
        rintro ⟨s2, heq, hlive, htr⟩
        injection heq with h1 h2
        subst h1
        rw [stepOk_iff_ok] at hok
        obtain ⟨out, heq2⟩ := hok
        unfold stepE at heq2
        dsimp only at heq2
        rw [if_pos hlive, if_pos htr] at heq2
        exact Except.noConfusion heq2
      · intro hne
        rw [stepOk_iff_ok]
        unfold stepE
        dsimp only
        by_cases hlive : s ∈ st.live
        · rw [if_pos hlive]
          by_cases htr : truthy (st.clientData s) = false
          · exact absurd ⟨s, rfl, hlive, htr⟩ hne
          · rw [if_neg htr]
            cases st.clientData s <;> exact ⟨_, rfl⟩
        · rw [if_neg hlive]
          exact ⟨_, rfl⟩

/-- Counterexample for C8 as stated: a live unauthenticated socket sends a
chat event whose payload has no `body`; the handler throws a TypeError at
`body.length` before its unauthenticated-message guard returns. -/
theorem c8_counterexample :
    Reachable (runSt [Ev.connect 0]) ∧
    0 ∈ (runSt [Ev.connect 0]).live ∧
    truthy ((runSt [Ev.connect 0]).clientData 0) = false ∧
    stepOk (runSt [Ev.connect 0]) (Ev.chat 0 none) = false :=
  ⟨⟨[Ev.connect 0], rfl⟩, by decide, by decide, by decide⟩

theorem runRegisterCalls_cons (st : AuthState) (lg pw : String)
    (rest : List (String × String)) :
    runRegisterCalls st ((lg, pw) :: rest) =
      ((runRegisterCalls (register st lg pw).1 rest).1,
       (lg, (register st lg pw).2) ::
         (runRegisterCalls (register st lg pw).1 rest).2) :=
  rfl

theorem regSuccessCount_cons (r : String × Except JsError Unit)
    (results : List (String × Except JsError Unit)) (lg : String) :
    regSuccessCount (r :: results) lg =
      (if r.1 = lg ∧ regOkBool r.2 = true then 1 else 0) +
        regSuccessCount results lg := by
  unfold regSuccessCount
  rw [List.filter_cons]
  by_cases hc : r.1 = lg ∧ regOkBool r.2 = true
  · rw [if_pos (by simpa using hc), if_pos hc]
    simp [Nat.add_comm]
  · rw [if_neg (by simpa using hc), if_neg hc]
    simp

theorem regSuccessCount_eq_zero (results : List (String × Except JsError Unit))
    (lg : String) (h : ∀ r ∈ results, regOkBool r.2 = false) :
    regSuccessCount results lg = 0 := by
  induction results with
  | nil => rfl
  | cons r rest ih =>
    rw [regSuccessCount_cons]
    rw [if_neg (by
      rintro ⟨-, hb⟩
      rw [h r (List.mem_cons_self r rest)] at hb
      exact Bool.noConfusion hb)]
    rw [Nat.zero_add]
    exact ih (fun x hx => h x (List.mem_cons_of_mem r hx))

theorem assocLookup_append_some (l l2 : List (String × String)) (key v : String)
    (h : assocLookup l key = some v) :
    assocLookup (l ++ l2) key = some v := by
  induction l with
  | nil => exact Option.noConfusion h
  | cons p rest ih =>
    obtain ⟨k, w⟩ := p
    rw [List.cons_append]
    unfold assocLookup at h ⊢
    by_cases hk : k = key
    · rw [if_pos hk] at h ⊢
      exact h
    · rw [if_neg hk] at h ⊢
      exact ih h

theorem assocLookup_append_self (l : List (String × String)) (key v : String)
    (h : assocLookup l key = none) :
    assocLookup (l ++ [(key, v)]) key = some v := by
  induction l with
  | nil =>
    rw [List.nil_append]
    unfold assocLookup
    rw [if_pos rfl]
  | cons p rest ih =>
    obtain ⟨k, w⟩ := p
    rw [List.cons_append]
    unfold assocLookup at h ⊢
    by_cases hk : k = key
    · rw [if_pos hk] at h
      exact Option.noConfusion h
    · rw [if_neg hk] at h ⊢
      exact ih h

/-- Source: chain poisoning — `_registrationLock.then(fn)` is given no
rejection handler, so once the lock is rejected every later `register` call
rejects with the same propagated error without its check-then-write
running, and the store never changes again. -/
theorem runRegisterCalls_poisoned (d : CredStore) (e : JsError)
    (ops : List (String × String)) :
    runRegisterCalls { db := d, lock := Except.error e } ops =
      ({ db := d, lock := Except.error e },
       ops.map (fun op => (op.1, Except.error e))) := by
  induction ops with
  | nil => rfl
  | cons op rest ih =>
    obtain ⟨lg, pw⟩ := op
    rw [runRegisterCalls_cons]
    have hreg : register { db := d, lock := Except.error e } lg pw =
        ({ db := d, lock := Except.error e }, Except.error e) := rfl
    rw [hreg]
    dsimp only
    rw [ih]
    rfl

/-- Run of the register queue from any state whose lock is either fulfilled
or poisoned by the duplicate-user error: a login already stored (or a
poisoned lock) admits no further success for it; every login succeeds at
most once; and every failed call's observed error is the plain
`Error('User already exists')` value — its own check's throw, or the same
error propagated through the poisoned chain. -/
theorem registerCalls_spec (L : String) (ops : List (String × String)) :
    ∀ st : AuthState,
      st.lock = Except.ok () ∨ st.lock = Except.error userExistsError →
      ((dbGet st.db (userKey L) ≠ none ∨
          st.lock = Except.error userExistsError) →
        regSuccessCount (runRegisterCalls st ops).2 L = 0) ∧
      regSuccessCount (runRegisterCalls st ops).2 L ≤ 1 ∧
      (∀ r ∈ (runRegisterCalls st ops).2, regOkBool r.2 = false →
        r.2 = Except.error userExistsError) := by
  induction ops with
  | nil =>
    intro st _
    refine ⟨fun _ => rfl, Nat.zero_le 1, ?_⟩
    intro r hr
    exact absurd hr (List.not_mem_nil r)
  | cons op rest ih =>
    intro st hlock
    obtain ⟨lg, pw⟩ := op
    rw [runRegisterCalls_cons]
    rcases hlock with hok | hpoison
    · cases hdb : dbGet st.db (userKey lg) with
      | some v =>
        have hreg : register st lg pw =
            ({ db := st.db, lock := Except.error userExistsError },
             Except.error userExistsError) := by
          unfold register
          rw [hok]
          dsimp only
          unfold registerStep
          rw [hdb]
        rw [hreg]
        dsimp only
        rw [runRegisterCalls_poisoned st.db userExistsError rest]
        dsimp only
        have hfails : ∀ r ∈ ((lg, (Except.error userExistsError :
              Except JsError Unit)) ::
            rest.map (fun op => (op.1, (Except.error userExistsError :
              Except JsError Unit)))),
            regOkBool r.2 = false := by
          intro r hr
          rcases List.mem_cons.1 hr with hr | hr
          · rw [hr]
            rfl
          · obtain ⟨op2, -, hop⟩ := List.mem_map.1 hr
            rw [← hop]
            rfl
        refine ⟨fun _ => regSuccessCount_eq_zero _ _ hfails, ?_, ?_⟩
        · rw [regSuccessCount_eq_zero _ _ hfails]
          exact Nat.zero_le 1
        · intro r hr hfail
          rcases List.mem_cons.1 hr with hr | hr
          · rw [hr]
          · obtain ⟨op2, -, hop⟩ := List.mem_map.1 hr
            rw [← hop]
      | none =>
        have hreg : register st lg pw =
            ({ db := { users := st.db.users ++
                 [(userKey lg, hashPassword pw)] },
               lock := Except.ok () }, Except.ok ()) := by
          unfold register
          rw [hok]
          dsimp only
          unfold registerStep
          rw [hdb]
        rw [hreg]
        dsimp only
        have ihst := ih { db := { users := st.db.users ++
            [(userKey lg, hashPassword pw)] }, lock := Except.ok () }
          (Or.inl rfl)
        refine ⟨?_, ?_, ?_⟩
        · intro hpre
          have hLne : dbGet st.db (userKey L) ≠ none := by
            rcases hpre with h | h
            · exact h
            · rw [hok] at h
              exact Except.noConfusion h
          rw [regSuccessCount_cons]
          rw [if_neg (by
            rintro ⟨ha, -⟩
            replace ha : lg = L := ha
            rw [ha] at hdb
            exact hLne hdb)]
          rw [Nat.zero_add]
          apply ihst.1
          left
          cases hv : dbGet st.db (userKey L) with
          | none => exact absurd hv hLne
          | some v =>
            intro hcontra
            have hsome : assocLookup (st.db.users ++
                [(userKey lg, hashPassword pw)]) (userKey L) = some v :=
              assocLookup_append_some st.db.users
                [(userKey lg, hashPassword pw)] (userKey L) v hv
            exact Option.noConfusion (hsome.symm.trans hcontra)
        · by_cases hlgL : lg = L
          · subst hlgL
            rw [regSuccessCount_cons]
            rw [if_pos ⟨rfl, rfl⟩]
            have htail : regSuccessCount (runRegisterCalls
                { db := { users := st.db.users ++
                    [(userKey lg, hashPassword pw)] },
                  lock := Except.ok () } rest).2 lg = 0 := by
              apply ihst.1
              left
              intro hcontra
              have hsome : assocLookup (st.db.users ++
                  [(userKey lg, hashPassword pw)]) (userKey lg) =
                  some (hashPassword pw) :=
                assocLookup_append_self st.db.users (userKey lg)
                  (hashPassword pw) hdb
              exact Option.noConfusion (hsome.symm.trans hcontra)
            rw [htail]
          · rw [regSuccessCount_cons]
            rw [if_neg (by rintro ⟨ha, -⟩; exact hlgL ha)]
            rw [Nat.zero_add]
            exact ihst.2.1
        · intro r hr hfail
          rcases List.mem_cons.1 hr with hr | hr
          · rw [hr] at hfail
            exact Bool.noConfusion hfail
          · exact ihst.2.2 r hr hfail
    · have hreg : register st lg pw = (st, Except.error userExistsError) := by
        unfold register
        rw [hpoison]
      rw [hreg]
      dsimp only
      have ihst := ih st (Or.inr hpoison)
      refine ⟨?_, ?_, ?_⟩
      · intro _
        rw [regSuccessCount_cons]
        rw [if_neg (by rintro ⟨-, hb⟩; exact Bool.noConfusion hb)]
        rw [Nat.zero_add]
        exact ihst.1 (Or.inr hpoison)
      · rw [regSuccessCount_cons]
        rw [if_neg (by rintro ⟨-, hb⟩; exact Bool.noConfusion hb)]
        rw [Nat.zero_add]
        exact ihst.2.1
      · intro r hr hfail
        rcases List.mem_cons.1 hr with hr | hr
        · rw [hr]
        · exact ihst.2.2 r hr hfail

/-- C4 (corrected): `LevelAuthenticator.register` serializes registrations
through the `_registrationLock` promise chain, so from a fresh
authenticator at most one registration of any given login ever succeeds,
and every unsuccessful `register` call rejects with the plain
`Error('User already exists')` value — name "Error", no `code` property —
not an `AlreadyExists`-coded error. Moreover the chain is poisoned by its
first rejection: `then` is given no rejection handler, so once the lock is
rejected every later call, for any login, rejects with the same propagated
error without its check-then-write running, and the store never changes
again. -/
theorem c4_register_queue (ops : List (String × String)) (L : String) :
    regSuccessCount (runRegisterCalls initialAuthState ops).2 L ≤ 1 ∧
    (∀ r ∈ (runRegisterCalls initialAuthState ops).2,
      regOkBool r.2 = false → r.2 = Except.error userExistsError) ∧
    (∀ (d : CredStore) (e : JsError) (ops2 : List (String × String)),
      runRegisterCalls { db := d, lock := Except.error e } ops2 =
        ({ db := d, lock := Except.error e },
         ops2.map (fun op => (op.1, Except.error e)))) :=
  ⟨(registerCalls_spec L ops initialAuthState (Or.inl rfl)).2.1,
   (registerCalls_spec L ops initialAuthState (Or.inl rfl)).2.2,
   fun d e ops2 => runRegisterCalls_poisoned d e ops2⟩

/-- Witness for C4: two registrations of "a" followed by one of "b" — at
most one "a" registration succeeds and every failing call rejects with the
plain `Error('User already exists')`. -/
theorem c4_register_queue_witness :
    regSuccessCount (runRegisterCalls initialAuthState
      [("a", "pw1"), ("a", "pw2"), ("b", "pw3")]).2 "a" ≤ 1 ∧
    (∀ r ∈ (runRegisterCalls initialAuthState
        [("a", "pw1"), ("a", "pw2"), ("b", "pw3")]).2,
      regOkBool r.2 = false → r.2 = Except.error userExistsError) ∧
    (∀ (d : CredStore) (e : JsError) (ops2 : List (String × String)),
      runRegisterCalls { db := d, lock := Except.error e } ops2 =
        ({ db := d, lock := Except.error e },
         ops2.map (fun op => (op.1, Except.error e)))) :=
  c4_register_queue [("a", "pw1"), ("a", "pw2"), ("b", "pw3")] "a"

/-- Counterexample for C4 as stated: registering "a", then "a" again, then
the never-before-seen "b". The duplicate "a" call rejects with a plain
Error — name "Error", not `AlreadyExists` — and poisons the
`_registrationLock` chain, so the subsequent "b" call also rejects with the
propagated error and "b" is never checked or written to the store, even
though its login was free. -/
theorem c4_counterexample :
    (runRegisterCalls initialAuthState
      [("a", "x"), ("a", "y"), ("b", "z")]).2 =
      [("a", Except.ok ()), ("a", Except.error userExistsError),
       ("b", Except.error userExistsError)] ∧
    userExistsError.name = "Error" ∧
    ¬userExistsError.name = "AlreadyExists" ∧
    dbGet (runRegisterCalls initialAuthState
      [("a", "x"), ("a", "y"), ("b", "z")]).1.db (userKey "b") = none :=
  ⟨rfl, rfl, by decide, rfl⟩

end Chat
